import Mathlib

/-!
# atom::AtomURLRequest

A shallow embedding of `atom/browser/net/atom_url_request.cc`: the request
session that owns one transport request (`net::URLRequest`), runs the read
loop on the I/O thread and posts lifecycle notifications to the UI thread.

The session code is translated function by function.  What the session only
calls (the transport request, the task poster, the object heap) is the
environment; it is modelled as explicit state:

* the heap maps buffer addresses to byte contents, so that the reusable read
  buffer and the copies handed to the UI thread are distinct objects;
* every call of `BrowserThread::PostTask` is logged in call order, and its
  boolean result is read from `Env.post_ok`;
* the transport request carries the answers it will give to the `Read` calls
  issued during the current callback.

The assertions of the source (`DCHECK`) never make a function return: in a
build that compiles them in, a false one aborts the process, and otherwise
they are no code at all.  Those on the calling thread (`DCHECK_CURRENTLY_ON`)
and on the identity of the request (`DCHECK_EQ`) hold by construction here:
every operation is taken to run on the thread the source asserts, and a
session has one request.  Those of `Create` bear on its arguments and are
modelled, with the build as a parameter.
-/

namespace atom

/-! ## Bytes, buffers and the heap -/

/-- A byte string; bytes are only moved around, never computed with. -/
abbrev Bytes := List Nat

/-- The object heap: the contents of the buffer at each address. -/
abbrev Heap := List Bytes

/-- A `net::IOBuffer`, known by its address. -/
structure IOBuffer where
  addr : Nat
deriving DecidableEq

/-- A `net::IOBufferWithSize`: an address and the size it was created with. -/
structure IOBufferWithSize where
  addr : Nat
  size_ : Int
deriving DecidableEq

/-- The constant `kBufferSize` of the anonymous namespace. -/
def kBufferSize : Int := 4096

/-- Contents of the buffer at an address (empty when nothing lives there). -/
def Heap.data (h : Heap) (addr : Nat) : Bytes := h.getD addr []

/-- Allocation of a fresh buffer holding `contents`: its address is new. -/
def Heap.alloc (h : Heap) (contents : Bytes) : Nat × Heap :=
  (h.length, h ++ [contents])

/-- The effect of writing `src` at the start of a buffer whose contents are
`old`: the prefix is overwritten, the length of the buffer does not change. -/
def overwrite (old src : Bytes) : Bytes :=
  (src ++ old.drop src.length).take old.length

/-- A write of at most `dest_size` bytes of `src` at the start of the buffer
at `addr`. -/
def Heap.write (h : Heap) (addr : Nat) (dest_size : Int) (src : Bytes) : Heap :=
  h.set addr (overwrite (h.data addr) (src.take dest_size.toNat))

/-- The `memcpy(dst, src, n)` of `CopyAndPostBuffer`, as the contents of the
destination afterwards: the first `n` bytes of the source.  The source holds
`kBufferSize` bytes; a copy of more than that is outside the model. -/
def memcpy (src : Bytes) (n : Int) : Bytes := src.take n.toNat

/-! ## The transport request (`net::URLRequest`) -/

/-- The two predicates of `net::URLRequestStatus` the session consults, kept
independent of each other, and the error code. -/
structure URLRequestStatus where
  is_success : Bool
  is_io_pending : Bool
  error : Int
deriving DecidableEq

/-- ASCII lower-casing of a header name, the key of case-insensitive lookup. -/
def lowerASCII (s : String) : List Char := s.data.map Char.toLower

/-- An ordered list of name/value pairs, `net::HttpRequestHeaders`. -/
structure HttpRequestHeaders where
  headers : List (String × String)
deriving DecidableEq

/-- Modelled from the spec: `net::HttpRequestHeaders::GetHeader`, whose code is
not part of the repository; the value of the entry whose name equals `name`
ignoring case, if there is one. -/
def HttpRequestHeaders.GetHeader (h : HttpRequestHeaders) (name : String) : Option String :=
  (h.headers.find? (fun kv => lowerASCII kv.1 == lowerASCII name)).map Prod.snd

/-- Replacement of the value of the first entry named `name` (ignoring case),
or addition of a new entry at the end when there is none. -/
def setEntry (name value : String) : List (String × String) → List (String × String)
  | [] => [(name, value)]
  | kv :: rest =>
    if lowerASCII kv.1 == lowerASCII name then (kv.1, value) :: rest
    else kv :: setEntry name value rest

/-- Modelled from the spec: `net::HttpRequestHeaders::SetHeader`, whose code is
not part of the repository; names are unique ignoring case and the last write
wins ("replace existing value for same name"). -/
def HttpRequestHeaders.SetHeader (h : HttpRequestHeaders) (name value : String) :
    HttpRequestHeaders :=
  ⟨setEntry name value h.headers⟩

/-- Removal of the first entry named `name` (ignoring case). -/
def eraseEntry (name : String) : List (String × String) → List (String × String)
  | [] => []
  | kv :: rest =>
    if lowerASCII kv.1 == lowerASCII name then rest else kv :: eraseEntry name rest

/-- Modelled from the spec: `net::HttpRequestHeaders::RemoveHeader`, whose code
is not part of the repository; the entry named `name` is removed, and nothing
happens when there is none. -/
def HttpRequestHeaders.RemoveHeader (h : HttpRequestHeaders) (name : String) :
    HttpRequestHeaders :=
  ⟨eraseEntry name h.headers⟩

/-- Number of entries of a header set whose name is `name` ignoring case. -/
def HttpRequestHeaders.entries (h : HttpRequestHeaders) (name : String) : Nat :=
  h.headers.countP (fun kv => lowerASCII kv.1 == lowerASCII name)

/-- Names of a header set are pairwise different ignoring case. -/
def HttpRequestHeaders.Unique (h : HttpRequestHeaders) : Prop :=
  (h.headers.map (fun kv => lowerASCII kv.1)).Nodup

/-- The read-only `net::HttpResponseHeaders` object of a response. -/
structure HttpResponseHeaders where
  response_code : Int
  status_text : String
  http_version_major : Nat
  http_version_minor : Nat
  raw : List (String × String)
deriving DecidableEq

/-- An authentication challenge raised by the transport. -/
structure AuthChallengeInfo where
  realm : String
deriving DecidableEq

/-- The `net::RequestPriority` values. -/
inductive RequestPriority where
  | IDLE | LOWEST | LOW | MEDIUM | HIGHEST
deriving DecidableEq

/-- The constant `net::DEFAULT_PRIORITY`. -/
def RequestPriority.DEFAULT_PRIORITY : RequestPriority := RequestPriority.LOWEST

/-- What one call of `net::URLRequest::Read` does besides returning: the value
it stores in `*bytes_read`, the bytes it writes into the destination buffer
and the status of the request afterwards. -/
structure ReadOutcome where
  bytes_read : Int
  data : Bytes
  status : URLRequestStatus
deriving DecidableEq

/-- The calls the session makes on its transport request that are not plain
state changes, in the order they are made. -/
inductive RequestCall where
  | Start
  | SetAuth (username password : String)
  | CancelAuth
  | Read (dest : IOBuffer) (dest_size : Int)
deriving DecidableEq

/-- The transport request.  `sync_reads` are the outcomes of the coming calls
of `Read` that return true, in order; `failed_read` is the outcome of a call of
`Read` made once those are used up, which returns false. -/
structure URLRequest where
  url : String
  priority : RequestPriority
  method : String
  extra_request_headers : HttpRequestHeaders
  full_request_headers : Option HttpRequestHeaders
  status : URLRequestStatus
  response_headers : Option HttpResponseHeaders
  calls : List RequestCall
  sync_reads : List ReadOutcome
  failed_read : ReadOutcome
deriving DecidableEq

/-- The call `request->Read(dest, dest_size, &bytes_read)`: the result, the
value left in `bytes_read`, the request and the heap afterwards. -/
def URLRequest.Read (r : URLRequest) (heap : Heap) (dest : IOBuffer) (dest_size : Int) :
    Bool × Int × URLRequest × Heap :=
  match r.sync_reads with
  | o :: rest =>
    (true, o.bytes_read,
      { r with status := o.status, sync_reads := rest,
               calls := r.calls ++ [RequestCall.Read dest dest_size] },
      heap.write dest.addr dest_size o.data)
  | [] =>
    (false, r.failed_read.bytes_read,
      { r with status := r.failed_read.status,
               calls := r.calls ++ [RequestCall.Read dest dest_size] },
      heap.write dest.addr dest_size r.failed_read.data)

/-- The call `request->GetFullRequestHeaders(headers)`, declared by the
transport library as `bool GetFullRequestHeaders(HttpRequestHeaders* headers)
const`.  The pointer is passed by value: the call can fill the object it
points to, when there is one, and cannot change the pointer of the caller.
The result says whether the transport had assembled its headers; the second
component is the pointed-to object afterwards. -/
def URLRequest.GetFullRequestHeaders (r : URLRequest) (headers : Option HttpRequestHeaders) :
    Bool × Option HttpRequestHeaders :=
  match r.full_request_headers, headers with
  | some full, some _ => (true, some full)
  | some _, none => (true, none)
  | none, target => (false, target)

/-! ## Tasks and threads -/

/-- The two browser threads: `UI` is the control context, `IO_` the I/O
context (`content::BrowserThread::IO`). -/
inductive BrowserThread where
  | UI | IO_
deriving DecidableEq

/-- The closures the session binds and posts, named by the bound method. -/
inductive Task where
  | DoStart
  | DoSetAuth (username password : String)
  | DoCancelAuth
  | InformDelegateAuthenticationRequired (auth_info : AuthChallengeInfo)
  | InformDelegateResponseStarted
  | InformDelegateResponseData (data : IOBufferWithSize)
  | InformDelegateResponseCompleted
deriving DecidableEq

/-- One call of `content::BrowserThread::PostTask`. -/
structure PostedTask where
  thread : BrowserThread
  task : Task
deriving DecidableEq

/-- The part of the environment the session cannot see: whether the call of
`PostTask` number `k` (counted from 0) succeeds. -/
structure Env where
  post_ok : Nat → Bool

/-! ## The session -/

/-- The session object with the process state it acts on.  `delegate_`,
`request_`, `buffer_` and `response_headers_` are the members used by the
source; `heap` and `posts` are the object heap and the log of `PostTask`
calls. -/
structure AtomURLRequest where
  delegate_ : Option Nat
  request_ : URLRequest
  buffer_ : IOBuffer
  response_headers_ : Option HttpResponseHeaders
  heap : Heap
  posts : List PostedTask
deriving DecidableEq

/-- The call `content::BrowserThread::PostTask(thread, FROM_HERE, task)`: it is
logged, and its result comes from the environment. -/
def PostTask (env : Env) (s : AtomURLRequest) (thread : BrowserThread) (task : Task) :
    Bool × AtomURLRequest :=
  (env.post_ok s.posts.length, { s with posts := s.posts ++ [⟨thread, task⟩] })

/-- A `net::URLRequestContext`, the factory of transport requests. -/
structure URLRequestContext where
  id : Nat
deriving DecidableEq

/-- A context getter: `GetURLRequestContext()` may return null. -/
structure URLRequestContextGetter where
  GetURLRequestContext : Option URLRequestContext
deriving DecidableEq

/-- A browser context: `url_request_context_getter()` may return null. -/
structure AtomBrowserContext where
  url_request_context_getter : Option URLRequestContextGetter
deriving DecidableEq

/-- How a call ends: it returns a value, the process is aborted by a failed
assertion, or a null pointer is dereferenced and the behaviour is undefined. -/
inductive Outcome (α : Type) where
  | returned (value : α)
  | aborted
  | undefined
deriving DecidableEq

/-- Sequencing of calls: what follows runs only after a return. -/
def Outcome.andThen {α β : Type} (o : Outcome α) (f : α → Outcome β) : Outcome β :=
  match o with
  | Outcome.returned value => f value
  | Outcome.aborted => Outcome.aborted
  | Outcome.undefined => Outcome.undefined

/-- The assertion `DCHECK(cond)` of the base library, whose definition is not
part of the repository: a debug assertion.  `dcheck_is_on` says whether the
build compiles assertions in; if so a false condition aborts the process, and
if not the condition is not looked at.  In no case does the assertion make
the caller return. -/
def DCHECK (dcheck_is_on : Bool) (cond : Bool) : Outcome Unit :=
  if dcheck_is_on && !cond then Outcome.aborted else Outcome.returned ()

/-- The use of a pointer through `->`: undefined behaviour when it is null. -/
def deref {α : Type} (pointer : Option α) : Outcome α :=
  match pointer with
  | some object => Outcome.returned object
  | none => Outcome.undefined

/-- The status of a request that has not been started. -/
def URLRequestStatus.initial : URLRequestStatus := ⟨true, false, 0⟩

/-- The call `context->CreateRequest(GURL(url), priority, delegate)`: a new
request for `url` with the given priority, method GET and no headers. -/
def CreateRequest (url : String) (priority : RequestPriority) : URLRequest :=
  { url := url, priority := priority, method := "GET",
    extra_request_headers := ⟨[]⟩, full_request_headers := none,
    status := URLRequestStatus.initial, response_headers := none,
    calls := [], sync_reads := [],
    failed_read := ⟨0, [], URLRequestStatus.initial⟩ }

/-- The function `AtomURLRequest::Create`, with the constructor inlined: the
read buffer of `kBufferSize` bytes (initial contents `fill`) is allocated on
`heap`.  The function has no failure result: it returns the new session,
unless an assertion aborts the process (`dcheck_is_on`) or a null context
pointer is used. -/
def Create (dcheck_is_on : Bool) (heap : Heap) (fill : Nat)
    (browser_context : Option AtomBrowserContext) (method url : String)
    (delegate : Option Nat) : Outcome AtomURLRequest :=
  (DCHECK dcheck_is_on browser_context.isSome).andThen fun _ =>
  (DCHECK dcheck_is_on (!url.isEmpty)).andThen fun _ =>
  (deref browser_context).andThen fun context_object =>
  let request_context_getter := context_object.url_request_context_getter
  (DCHECK dcheck_is_on request_context_getter.isSome).andThen fun _ =>
  (deref request_context_getter).andThen fun getter =>
  let context := getter.GetURLRequestContext
  (DCHECK dcheck_is_on context.isSome).andThen fun _ =>
  (deref context).andThen fun _ =>
  let (addr, heap1) := heap.alloc (List.replicate kBufferSize.toNat fill)
  let request := CreateRequest url RequestPriority.DEFAULT_PRIORITY
  Outcome.returned
    { delegate_ := delegate
      request_ := { request with method := method }
      buffer_ := ⟨addr⟩
      response_headers_ := none
      heap := heap1
      posts := [] }

/-- The function `AtomURLRequest::Write`: only a thread assertion. -/
def Write (s : AtomURLRequest) : AtomURLRequest := s

/-- The function `AtomURLRequest::End`: posts `DoStart` to the I/O thread. -/
def End (env : Env) (s : AtomURLRequest) : AtomURLRequest :=
  (PostTask env s BrowserThread.IO_ Task.DoStart).2

/-- The function `AtomURLRequest::Abort`: only a thread assertion. -/
def Abort (s : AtomURLRequest) : AtomURLRequest := s

/-- The call `request->SetExtraRequestHeaderByName(name, value, overwrite)`:
with `overwrite` the value replaces the one the name has, without it a value
the name already has is kept.  The session always passes `true`. -/
def URLRequest.SetExtraRequestHeaderByName (r : URLRequest) (name value : String)
    (overwrite : Bool) : URLRequest :=
  if overwrite then
    { r with extra_request_headers := r.extra_request_headers.SetHeader name value }
  else if (r.extra_request_headers.GetHeader name).isSome then r
  else { r with extra_request_headers := r.extra_request_headers.SetHeader name value }

/-- The call `request->RemoveRequestHeaderByName(name)`. -/
def URLRequest.RemoveRequestHeaderByName (r : URLRequest) (name : String) : URLRequest :=
  { r with extra_request_headers := r.extra_request_headers.RemoveHeader name }

/-- The function `AtomURLRequest::SetHeader`. -/
def SetHeader (s : AtomURLRequest) (name value : String) : AtomURLRequest :=
  { s with request_ := s.request_.SetExtraRequestHeaderByName name value true }

/-- The function `AtomURLRequest::GetHeader`.  The local `request_headers`
starts as the null pointer and is handed to `GetFullRequestHeaders` by value,
so it is still null when the condition tests it. -/
def GetHeader (s : AtomURLRequest) (name : String) : String :=
  let result := ""
  match s.request_.extra_request_headers.GetHeader name with
  | some value => value
  | none =>
    let request_headers : Option HttpRequestHeaders := none
    if (s.request_.GetFullRequestHeaders request_headers).1 && request_headers.isSome then
      match request_headers.bind (fun h => h.GetHeader name) with
      | some value => value
      | none => result
    else result

/-- The function `AtomURLRequest::RemoveHeader`. -/
def RemoveHeader (s : AtomURLRequest) (name : String) : AtomURLRequest :=
  { s with request_ := s.request_.RemoveRequestHeaderByName name }

/-- The function `AtomURLRequest::GetResponseHeaders`. -/
def GetResponseHeaders (s : AtomURLRequest) : Option HttpResponseHeaders :=
  s.request_.response_headers

/-- The function `AtomURLRequest::PassLoginInformation`. -/
def PassLoginInformation (env : Env) (s : AtomURLRequest) (username password : String) :
    AtomURLRequest :=
  if username.isEmpty || password.isEmpty then
    (PostTask env s BrowserThread.IO_ Task.DoCancelAuth).2
  else
    (PostTask env s BrowserThread.IO_ (Task.DoSetAuth username password)).2

/-- The function `AtomURLRequest::DoStart`. -/
def DoStart (s : AtomURLRequest) : AtomURLRequest :=
  { s with request_ := { s.request_ with calls := s.request_.calls ++ [RequestCall.Start] } }

/-- The function `AtomURLRequest::DoSetAuth`. -/
def DoSetAuth (s : AtomURLRequest) (username password : String) : AtomURLRequest :=
  { s with request_ :=
      { s.request_ with calls := s.request_.calls ++ [RequestCall.SetAuth username password] } }

/-- The function `AtomURLRequest::DoCancelAuth`. -/
def DoCancelAuth (s : AtomURLRequest) : AtomURLRequest :=
  { s with request_ := { s.request_ with calls := s.request_.calls ++ [RequestCall.CancelAuth] } }

/-- Execution on the I/O thread of a task the session posted there; a task
bound to a UI-thread method changes nothing on the I/O side. -/
def runOnIOThread (s : AtomURLRequest) : Task → AtomURLRequest
  | Task.DoStart => DoStart s
  | Task.DoSetAuth username password => DoSetAuth s username password
  | Task.DoCancelAuth => DoCancelAuth s
  | _ => s

/-- The function `AtomURLRequest::OnAuthRequired`. -/
def OnAuthRequired (env : Env) (s : AtomURLRequest) (auth_info : AuthChallengeInfo) :
    AtomURLRequest :=
  (PostTask env s BrowserThread.UI (Task.InformDelegateAuthenticationRequired auth_info)).2

/-- The function `AtomURLRequest::CopyAndPostBuffer`: a fresh buffer of
`bytes_read` bytes receives the start of the read buffer and is posted to the
UI thread; the result is the result of `PostTask`. -/
def CopyAndPostBuffer (env : Env) (s : AtomURLRequest) (bytes_read : Int) :
    Bool × AtomURLRequest :=
  let (addr, heap1) := s.heap.alloc (memcpy (s.heap.data s.buffer_.addr) bytes_read)
  let buffer_copy : IOBufferWithSize := ⟨addr, bytes_read⟩
  PostTask env { s with heap := heap1 } BrowserThread.UI
    (Task.InformDelegateResponseData buffer_copy)

/-- The call `request_->Read(buffer_.get(), kBufferSize, &bytes_read)` made by
the session: the result, the value left in `bytes_read` and the session. -/
def readIntoBuffer (s : AtomURLRequest) : Bool × Int × AtomURLRequest :=
  let r := s.request_.Read s.heap s.buffer_ kBufferSize
  (r.1, r.2.1, { s with request_ := r.2.2.1, heap := r.2.2.2 })

/-- How the do-while loop of `OnReadCompleted` is left. -/
inductive LoopExit where
  | fell_through
  | returned
deriving DecidableEq

/-- The do-while loop of `AtomURLRequest::OnReadCompleted`.  Each turn that
goes on uses up one entry of `sync_reads`, which is what `fuel` counts. -/
def readLoop (env : Env) : Nat → AtomURLRequest → Int → LoopExit × AtomURLRequest
  | 0, s, _ => (LoopExit.fell_through, s)
  | fuel + 1, s, bytes_read =>
    if !s.request_.status.is_success || bytes_read ≤ 0 then
      (LoopExit.fell_through, s)
    else
      let posted := CopyAndPostBuffer env s bytes_read
      if !posted.1 then
        (LoopExit.returned, posted.2)
      else
        let r := readIntoBuffer posted.2
        if r.1 then readLoop env fuel r.2.2 r.2.1
        else (LoopExit.fell_through, r.2.2)

/-- The function `AtomURLRequest::OnReadCompleted`. -/
def OnReadCompleted (env : Env) (s : AtomURLRequest) (bytes_read : Int) : AtomURLRequest :=
  match readLoop env (s.request_.sync_reads.length + 1) s bytes_read with
  | (LoopExit.returned, s1) => s1
  | (LoopExit.fell_through, s1) =>
    let status := s1.request_.status
    if !status.is_io_pending then
      (PostTask env s1 BrowserThread.UI Task.InformDelegateResponseCompleted).2
    else s1

/-- The function `AtomURLRequest::ReadResponse`. -/
def ReadResponse (env : Env) (s : AtomURLRequest) : AtomURLRequest :=
  let bytes_read : Int := 0
  if s.request_.status.is_success then
    let r := readIntoBuffer s
    if !r.1 then OnReadCompleted env r.2.2 (-1)
    else OnReadCompleted env r.2.2 r.2.1
  else OnReadCompleted env s bytes_read

/-- The function `AtomURLRequest::OnResponseStarted`. -/
def OnResponseStarted (env : Env) (s : AtomURLRequest) : AtomURLRequest :=
  let s1 :=
    if s.request_.status.is_success then
      { s with response_headers_ := s.request_.response_headers }
    else s
  let s2 := (PostTask env s1 BrowserThread.UI Task.InformDelegateResponseStarted).2
  ReadResponse env s2

/-! ## The transport as the caller of the session -/

/-- The state of the transport when it calls `OnResponseStarted`: its status,
its response headers, and its answers to the reads of that call. -/
structure ResponseStart where
  status : URLRequestStatus
  response_headers : Option HttpResponseHeaders
  sync_reads : List ReadOutcome
  failed_read : ReadOutcome
deriving DecidableEq

/-- The completion of a pending read: the status of the transport, the bytes
the read has put in the read buffer, the byte count handed to
`OnReadCompleted`, and the answers to the reads of that call. -/
structure ReadCompletion where
  status : URLRequestStatus
  data : Bytes
  bytes_read : Int
  sync_reads : List ReadOutcome
  failed_read : ReadOutcome
deriving DecidableEq

/-- The session as the transport leaves it when it is about to call
`OnResponseStarted`. -/
def atResponseStart (s : AtomURLRequest) (a : ResponseStart) : AtomURLRequest :=
  { s with request_ :=
      { s.request_ with status := a.status, response_headers := a.response_headers,
                        sync_reads := a.sync_reads, failed_read := a.failed_read } }

/-- The session as the transport leaves it when it is about to call
`OnReadCompleted`: the pending read has written into the read buffer. -/
def atReadCompletion (s : AtomURLRequest) (c : ReadCompletion) : AtomURLRequest :=
  { s with request_ :=
      { s.request_ with status := c.status, sync_reads := c.sync_reads,
                        failed_read := c.failed_read },
           heap := s.heap.write s.buffer_.addr kBufferSize c.data }

/-- The transport reports the start of the response. -/
def transportResponseStarted (env : Env) (s : AtomURLRequest) (a : ResponseStart) :
    AtomURLRequest :=
  OnResponseStarted env (atResponseStart s a)

/-- The transport completes a pending read. -/
def transportReadCompleted (env : Env) (s : AtomURLRequest) (c : ReadCompletion) :
    AtomURLRequest :=
  OnReadCompleted env (atReadCompletion s c) c.bytes_read

/-- The transport completes pending reads one after the other. -/
def completeReads (env : Env) (s : AtomURLRequest) (cs : List ReadCompletion) : AtomURLRequest :=
  cs.foldl (transportReadCompleted env) s

/-- Every completion answers a read that was left pending, and no read is
left pending at the end. -/
def pendingReadsCompleted (env : Env) : AtomURLRequest → List ReadCompletion → Bool
  | s, [] => !s.request_.status.is_io_pending
  | s, c :: rest =>
    s.request_.status.is_io_pending &&
      pendingReadsCompleted env (transportReadCompleted env s c) rest

/-- A whole session as the transport drives it: authentication challenges,
the start of the response, then the completions of pending reads. -/
def runSession (env : Env) (s : AtomURLRequest) (challenges : List AuthChallengeInfo)
    (start : ResponseStart) (completions : List ReadCompletion) : AtomURLRequest :=
  completeReads env
    (transportResponseStarted env (challenges.foldl (OnAuthRequired env) s) start) completions

/-- The transport behaves as announced: reads left pending are completed
through `OnReadCompleted`, and only those. -/
def wellBehaved (env : Env) (s : AtomURLRequest) (challenges : List AuthChallengeInfo)
    (start : ResponseStart) (completions : List ReadCompletion) : Bool :=
  pendingReadsCompleted env
    (transportResponseStarted env (challenges.foldl (OnAuthRequired env) s) start) completions

/-! ## Notifications -/

/-- The post of a notification to the UI thread. -/
def toUI (t : Task) : PostedTask := ⟨BrowserThread.UI, t⟩

/-- The post of a data notification. -/
def dataPost (b : IOBufferWithSize) : PostedTask := toUI (Task.InformDelegateResponseData b)

/-- The copies the read loop makes of `chunks`, one new object after the
other from address `base` on, each of the size of its chunk. -/
def copiesAt (base : Nat) : List Bytes → List IOBufferWithSize
  | [] => []
  | c :: cs => ⟨base, (c.length : Int)⟩ :: copiesAt (base + 1) cs

/-- The post of an authentication challenge. -/
def authPost (a : AuthChallengeInfo) : PostedTask :=
  toUI (Task.InformDelegateAuthenticationRequired a)

/-- The tasks posted to the UI thread, in order. -/
def uiNotifications (posts : List PostedTask) : List Task :=
  (posts.filter (fun p => p.thread = BrowserThread.UI)).map (fun p => p.task)

/-- The posts a run has added to the log. -/
def newPosts (before after : AtomURLRequest) : List PostedTask :=
  after.posts.drop before.posts.length

/-- Recogniser of "auth required" notifications. -/
def Task.isAuthRequired : Task → Bool
  | Task.InformDelegateAuthenticationRequired _ => true
  | _ => false

/-- Recogniser of "response started" notifications. -/
def Task.isResponseStarted : Task → Bool
  | Task.InformDelegateResponseStarted => true
  | _ => false

/-- Recogniser of "data" notifications. -/
def Task.isData : Task → Bool
  | Task.InformDelegateResponseData _ => true
  | _ => false

/-- Recogniser of "completed" notifications. -/
def Task.isCompleted : Task → Bool
  | Task.InformDelegateResponseCompleted => true
  | _ => false

/-- The pattern `data* completed`. -/
def matchesDataCompleted (l : List Task) : Bool :=
  match l.dropWhile Task.isData with
  | [t] => t.isCompleted
  | _ => false

/-- The pattern `auth-required* response-started data* completed`. -/
def matchesLifecycle (l : List Task) : Bool :=
  match l.dropWhile Task.isAuthRequired with
  | t :: rest => t.isResponseStarted && matchesDataCompleted rest
  | [] => false

/-- Every hand-off succeeds. -/
def Env.allPostsSucceed (env : Env) : Prop := ∀ k, env.post_ok k = true

/-- The environment in which every hand-off succeeds. -/
def Env.reliable : Env := ⟨fun _ => true⟩

/-- A status of success with nothing pending. -/
def URLRequestStatus.SUCCESS : URLRequestStatus := ⟨true, false, 0⟩

/-- A status of failure with the given error code. -/
def URLRequestStatus.FAILED (error : Int) : URLRequestStatus := ⟨false, false, error⟩

/-- A status with a read pending: the request counts as successful so far. -/
def URLRequestStatus.IO_PENDING : URLRequestStatus := ⟨true, true, 0⟩

/-! ## Sample sessions -/

/-- A browser context that yields a transport context. -/
def usableContext : Option AtomBrowserContext := some ⟨some ⟨some ⟨0⟩⟩⟩

/-- The session `Create` returns for `GET http://example.test/ok` on an empty
heap: the read buffer is the only object, at address 0. -/
def exampleSession : AtomURLRequest :=
  { delegate_ := none
    request_ := CreateRequest "http://example.test/ok" RequestPriority.DEFAULT_PRIORITY
    buffer_ := ⟨0⟩
    response_headers_ := none
    heap := [List.replicate kBufferSize.toNat 0]
    posts := [] }

/-- The sample session once dispatched: the transport has assembled its
request headers. -/
def dispatchedSession : AtomURLRequest :=
  { exampleSession with
    request_ := { exampleSession.request_ with
      full_request_headers := some ⟨[("Host", "example.test")]⟩
      calls := [RequestCall.Start] } }

/-- The environment in which the second call of `PostTask` fails and every
other one succeeds. -/
def lossyEnv : Env := ⟨fun k => decide (k ≠ 1)⟩

/-- Twelve bytes of body. -/
def body12 : Bytes := [72, 101, 108, 108, 111, 44, 32, 119, 111, 114, 108, 100]

/-- A read of 0 bytes that returns true: the end of the stream. -/
def endOfStream : ReadOutcome := ⟨0, [], URLRequestStatus.SUCCESS⟩

/-- The transport reports success and has the whole body of twelve bytes at
hand: one read of 12 bytes, then the end of the stream. -/
def start12 : ResponseStart :=
  ⟨URLRequestStatus.SUCCESS, none, [⟨12, body12, URLRequestStatus.SUCCESS⟩, endOfStream],
    ⟨0, [], URLRequestStatus.SUCCESS⟩⟩

/-- The transport reports success and has no byte at hand: the first read is
left pending. -/
def startPending : ResponseStart :=
  ⟨URLRequestStatus.SUCCESS, none, [], ⟨0, [], URLRequestStatus.IO_PENDING⟩⟩

/-- The pending read completes with the twelve bytes; the end of the stream
follows. -/
def completion12 : ReadCompletion :=
  ⟨URLRequestStatus.SUCCESS, body12, 12, [endOfStream], ⟨0, [], URLRequestStatus.SUCCESS⟩⟩

/-- The transport reports success and its first read fails at once. -/
def startReadError : ResponseStart :=
  ⟨URLRequestStatus.SUCCESS, none, [], ⟨0, [], URLRequestStatus.FAILED (-101)⟩⟩

/-- A challenge. -/
def challenge : AuthChallengeInfo := ⟨"example"⟩

/-! ## The heads of the read loop -/

/-- What the check at the head of a turn of the loop reads: the status of the
request and the byte count left by the read before. -/
abbrev LoopHead := URLRequestStatus × Int

/-- The check at the head of a turn lets the turn go on: the status is success
and the byte count is positive (the source breaks on the negation). -/
def goesOn (h : LoopHead) : Bool := h.1.is_success && decide (0 < h.2)

/-- The head a read that returns true leaves for the next turn. -/
def ReadOutcome.head (o : ReadOutcome) : LoopHead := (o.status, o.bytes_read)

/-- The heads a call of the loop entered with `bytes_read` can meet: the one
at entry, then the one left by each read that returns true. -/
def loopHeads (s : AtomURLRequest) (bytes_read : Int) : List LoopHead :=
  (s.request_.status, bytes_read) :: s.request_.sync_reads.map ReadOutcome.head

/-- The turns the loop makes when no hand-off fails: the heads before the
first one that stops it. -/
def loopTurns (s : AtomURLRequest) (bytes_read : Int) : List LoopHead :=
  (loopHeads s bytes_read).takeWhile goesOn

/-- The response headers of a 401 answer that carries a challenge. -/
def headers401 : HttpResponseHeaders :=
  ⟨401, "Unauthorized", 1, 1, [("WWW-Authenticate", "Basic realm=example")]⟩

/-- The sample session when the transport has received a 401 answer and has
called `OnAuthRequired`: no response has been started yet. -/
def challengedSession : AtomURLRequest :=
  OnAuthRequired Env.reliable
    { dispatchedSession with
      request_ := { dispatchedSession.request_ with response_headers := some headers401 } }
    challenge

/-- The response headers of a 200 answer. -/
def headers200 : HttpResponseHeaders :=
  ⟨200, "OK", 1, 1, [("Content-Length", "12")]⟩

/-- The sample session after a response of twelve bytes has started with a
200 answer and every hand-off has succeeded. -/
def startedSession : AtomURLRequest :=
  OnResponseStarted Env.reliable
    (atResponseStart dispatchedSession { start12 with response_headers := some headers200 })

/-- The pending read completes with the twelve bytes; a read of five more
bytes and the end of the stream follow. -/
def completion12then5 : ReadCompletion :=
  ⟨URLRequestStatus.SUCCESS, body12, 12,
    [⟨5, [33, 33, 33, 33, 33], URLRequestStatus.SUCCESS⟩, endOfStream],
    ⟨0, [], URLRequestStatus.SUCCESS⟩⟩

/-- The transport reports the start of a response that has failed. -/
def startFailed : ResponseStart :=
  ⟨URLRequestStatus.FAILED (-105), none, [], ⟨0, [], URLRequestStatus.FAILED (-105)⟩⟩

/-! # Theorems -/

/-! ## Request headers -/


theorem setEntry_setEntry (n n2 v1 v2 : String) (h : lowerASCII n2 = lowerASCII n)
    (l : List (String × String)) :
    setEntry n2 v2 (setEntry n v1 l) = setEntry n v2 l := by
  induction l with
  | nil => simp [setEntry, h]
  | cons kv rest ih =>
    by_cases hk : lowerASCII kv.1 = lowerASCII n
    · simp [setEntry, hk, h]
    · simp [setEntry, hk, h, ih]

theorem find_setEntry (n v : String) (l : List (String × String)) :
    ((setEntry n v l).find? (fun kv => lowerASCII kv.1 == lowerASCII n)).map Prod.snd
      = some v := by
  induction l with
  | nil => simp [setEntry]
  | cons kv rest ih =>
    by_cases hk : lowerASCII kv.1 = lowerASCII n
    · simp [setEntry, hk]
    · simp [setEntry, hk, List.find?_cons, ih]

theorem countP_eq_zero_of_not_mem (n : String) (l : List (String × String))
    (h : lowerASCII n ∉ l.map (fun kv => lowerASCII kv.1)) :
    l.countP (fun kv => lowerASCII kv.1 == lowerASCII n) = 0 := by
  rw [List.countP_eq_zero]
  intro kv hkv hk
  apply h
  simp only [beq_iff_eq] at hk
  exact List.mem_map.mpr ⟨kv, hkv, hk⟩

theorem countP_setEntry (n v : String) (l : List (String × String))
    (hu : (l.map (fun kv => lowerASCII kv.1)).Nodup) :
    (setEntry n v l).countP (fun kv => lowerASCII kv.1 == lowerASCII n) = 1 := by
  induction l with
  | nil => simp [setEntry]
  | cons kv rest ih =>
    simp only [List.map_cons, List.nodup_cons] at hu
    by_cases hk : lowerASCII kv.1 = lowerASCII n
    · have h0 := countP_eq_zero_of_not_mem n rest (hk ▸ hu.1)
      simp [setEntry, hk, List.countP_cons, h0]
    · simp [setEntry, hk, List.countP_cons, ih hu.2]

theorem keys_setEntry (n v : String) (l : List (String × String)) :
    (setEntry n v l).map (fun kv => lowerASCII kv.1) =
      if lowerASCII n ∈ l.map (fun kv => lowerASCII kv.1) then
        l.map (fun kv => lowerASCII kv.1)
      else l.map (fun kv => lowerASCII kv.1) ++ [lowerASCII n] := by
  induction l with
  | nil => simp [setEntry]
  | cons kv rest ih =>
    by_cases hk : lowerASCII kv.1 = lowerASCII n
    · simp [setEntry, hk]
    · have hk2 : ¬ lowerASCII n = lowerASCII kv.1 := fun e => hk e.symm
      simp only [setEntry, hk, beq_iff_eq, if_false, List.map_cons, ih, List.mem_cons, hk2,
        false_or]
      split <;> simp

/-- The uniqueness of names is kept by `SetHeader`. -/
theorem SetHeader_unique (s : AtomURLRequest) (n v : String)
    (hu : s.request_.extra_request_headers.Unique) :
    (SetHeader s n v).request_.extra_request_headers.Unique := by
  unfold HttpRequestHeaders.Unique at *
  simp only [SetHeader, URLRequest.SetExtraRequestHeaderByName, if_true,
    HttpRequestHeaders.SetHeader, keys_setEntry]
  split
  · exact hu
  · rename_i hn
    exact List.Nodup.append hu (List.nodup_singleton _) (by simpa using hn)

theorem eraseEntry_sublist (n : String) (l : List (String × String)) :
    (eraseEntry n l).Sublist l := by
  induction l with
  | nil => simp [eraseEntry]
  | cons kv rest ih =>
    by_cases hk : lowerASCII kv.1 = lowerASCII n
    · simp [eraseEntry, hk]
    · simp [eraseEntry, hk, ih]

/-- The uniqueness of names is kept by `RemoveHeader`. -/
theorem RemoveHeader_unique (s : AtomURLRequest) (n : String)
    (hu : s.request_.extra_request_headers.Unique) :
    (RemoveHeader s n).request_.extra_request_headers.Unique := by
  unfold HttpRequestHeaders.Unique at *
  simp only [RemoveHeader, URLRequest.RemoveRequestHeaderByName, HttpRequestHeaders.RemoveHeader]
  exact List.Nodup.sublist ((eraseEntry_sublist n _).map _) hu

theorem eraseEntry_of_find_none (n : String) (l : List (String × String))
    (h : l.find? (fun kv => lowerASCII kv.1 == lowerASCII n) = none) :
    eraseEntry n l = l := by
  induction l with
  | nil => rfl
  | cons kv rest ih =>
    by_cases hk : lowerASCII kv.1 = lowerASCII n
    · simp [List.find?_cons, hk] at h
    · have hb : (lowerASCII kv.1 == lowerASCII n) = false := by simpa using hk
      rw [List.find?_cons, hb] at h
      simp [eraseEntry, hk, ih h]

/-- C6.  Setting a header twice to the same value is the same as setting it
once, and afterwards the extra-header set has exactly one entry for the name,
holding that value; setting it to `v1` and then, under a name that is the same
ignoring case, to `v2` leaves exactly one entry, holding `v2`. -/
theorem SetHeader_idempotent_overwrite (s : AtomURLRequest) (n v v1 v2 : String)
    (hu : s.request_.extra_request_headers.Unique) :
    SetHeader (SetHeader s n v) n v = SetHeader s n v ∧
    (SetHeader (SetHeader s n v) n v).request_.extra_request_headers.entries n = 1 ∧
    (SetHeader (SetHeader s n v) n v).request_.extra_request_headers.GetHeader n = some v ∧
    ∀ n2, lowerASCII n2 = lowerASCII n →
      (SetHeader (SetHeader s n v1) n2 v2).request_.extra_request_headers.entries n = 1 ∧
      (SetHeader (SetHeader s n v1) n2 v2).request_.extra_request_headers.GetHeader n
        = some v2 := by
  have key : ∀ (a b n2 : String), lowerASCII n2 = lowerASCII n →
      (SetHeader (SetHeader s n a) n2 b).request_.extra_request_headers
        = ⟨setEntry n b s.request_.extra_request_headers.headers⟩ := by
    intro a b n2 h
    simp [SetHeader, URLRequest.SetExtraRequestHeaderByName, HttpRequestHeaders.SetHeader,
      setEntry_setEntry n n2 a b h]
  refine ⟨?_, ?_, ?_, ?_⟩
  · simp [SetHeader, URLRequest.SetExtraRequestHeaderByName, HttpRequestHeaders.SetHeader,
      setEntry_setEntry n n v v rfl]
  · rw [key v v n rfl]
    exact countP_setEntry n v _ hu
  · rw [key v v n rfl]
    exact find_setEntry n v _
  · intro n2 h
    rw [key v1 v2 n2 h]
    exact ⟨countP_setEntry n v2 _ hu, find_setEntry n v2 _⟩

/-- C7.  Removing a header whose name is not in the extra-header set returns
the session as it was: the header set and every other field are unchanged,
and the operation has no error result. -/
theorem RemoveHeader_absent (s : AtomURLRequest) (n : String)
    (h : s.request_.extra_request_headers.GetHeader n = none) :
    RemoveHeader s n = s := by
  have h1 : s.request_.extra_request_headers.headers.find?
      (fun kv => lowerASCII kv.1 == lowerASCII n) = none := by
    simpa [HttpRequestHeaders.GetHeader] using h
  simp [RemoveHeader, URLRequest.RemoveRequestHeaderByName, HttpRequestHeaders.RemoveHeader,
    eraseEntry_of_find_none n _ h1]

/-! ## Credentials, header lookup, construction -/

theorem isEmpty_iff_eq_empty (x : String) : x.isEmpty = true ↔ x = "" :=
  String.isEmpty_iff x

theorem isEmpty_empty : ("" : String).isEmpty = true := (isEmpty_iff_eq_empty "").mpr rfl

/-- C3.  `PassLoginInformation` makes exactly one call of `PostTask`, to the
I/O thread and changes nothing else; the task is `DoCancelAuth` if and only if
the username or the password is empty, and is otherwise `DoSetAuth` with
exactly the given username and password.  Run on the I/O thread, the task
calls `CancelAuth`, respectively `SetAuth` with those credentials, on the
transport.  `("", "")` and `("u", "")` both give `DoCancelAuth`. -/
theorem PassLoginInformation_spec (env : Env) (s : AtomURLRequest) (username password : String) :
    (∃ task,
      PassLoginInformation env s username password
        = { s with posts := s.posts ++ [⟨BrowserThread.IO_, task⟩] } ∧
      (task = Task.DoCancelAuth ↔ (username = "" ∨ password = "")) ∧
      (¬ (username = "" ∨ password = "") → task = Task.DoSetAuth username password) ∧
      (task = Task.DoCancelAuth →
        (runOnIOThread s task).request_.calls = s.request_.calls ++ [RequestCall.CancelAuth]) ∧
      (task = Task.DoSetAuth username password →
        (runOnIOThread s task).request_.calls
          = s.request_.calls ++ [RequestCall.SetAuth username password])) ∧
    (PassLoginInformation env s "" "").posts
      = s.posts ++ [⟨BrowserThread.IO_, Task.DoCancelAuth⟩] ∧
    (PassLoginInformation env s "u" "").posts
      = s.posts ++ [⟨BrowserThread.IO_, Task.DoCancelAuth⟩] := by
  refine ⟨?_, by simp [PassLoginInformation, PostTask, isEmpty_empty],
    by simp [PassLoginInformation, PostTask, isEmpty_empty]⟩
  by_cases h : username = "" ∨ password = ""
  · refine ⟨Task.DoCancelAuth, ?_, by simp [h], by simp [h], by simp [runOnIOThread, DoCancelAuth],
      by simp⟩
    have hb : (username.isEmpty || password.isEmpty) = true := by
      rcases h with h | h
      · simp [(isEmpty_iff_eq_empty username).mpr h]
      · simp [(isEmpty_iff_eq_empty password).mpr h]
    simp [PassLoginInformation, PostTask, hb]
  · refine ⟨Task.DoSetAuth username password, ?_, by simp [h], by simp, by simp,
      by simp [runOnIOThread, DoSetAuth]⟩
    have hb : (username.isEmpty || password.isEmpty) = false := by
      rw [Bool.or_eq_false_iff]
      constructor
      · rw [← Bool.not_eq_true, isEmpty_iff_eq_empty]; exact fun e => h (Or.inl e)
      · rw [← Bool.not_eq_true, isEmpty_iff_eq_empty]; exact fun e => h (Or.inr e)
    simp [PassLoginInformation, PostTask, hb]

/-- The value `GetHeader` returns is the one of the extra-header set, and the
empty string when the name is not there: the headers assembled by the
transport never reach the result. -/
theorem GetHeader_eq (s : AtomURLRequest) (name : String) :
    GetHeader s name = (s.request_.extra_request_headers.GetHeader name).getD "" := by
  unfold GetHeader
  cases s.request_.extra_request_headers.GetHeader name <;> simp

/-- C8.  On a session whose extra-header set is empty and whose transport has
assembled the request header `Host: example.test`, `GetHeader "Host"` returns
the empty string although the name is present in the full request headers. -/
theorem GetHeader_ignores_full_request_headers :
    dispatchedSession.request_.extra_request_headers.GetHeader "Host" = none ∧
    (dispatchedSession.request_.full_request_headers.bind (fun h => h.GetHeader "Host"))
      = some "example.test" ∧
    GetHeader dispatchedSession "Host" = "" := by
  refine ⟨by decide, by decide, by decide⟩

/-- C9 (as amended).  `Create` has no failure result; that the url is not
empty and that the browser context yields a transport context (the context,
its getter and the getter's context are not null) are asserted.  When the
context is usable and the url is not empty, `Create` returns a session in
every build.  When an assertion is violated in a build with assertions, the
process is aborted and no session is produced.  In a build without
assertions, `Create` returns a session also for an empty url, and uses a null
pointer when the context is not usable.  A session `Create` returns owns a
request for the given url with the default priority and the given method; its
extra-header set is empty, its read buffer holds `kBufferSize` bytes and
nothing has been posted. -/
theorem Create_spec (dcheck_is_on : Bool) (heap : Heap) (fill : Nat)
    (browser_context : Option AtomBrowserContext) (method url : String)
    (delegate : Option Nat) :
    ((browser_context.bind (fun c => c.url_request_context_getter)).bind
        (fun g => g.GetURLRequestContext) ≠ none →
      (url ≠ "" ∨ dcheck_is_on = false) →
      ∃ s, Create dcheck_is_on heap fill browser_context method url delegate
        = Outcome.returned s) ∧
    (dcheck_is_on = true →
      (url = "" ∨
        (browser_context.bind (fun c => c.url_request_context_getter)).bind
          (fun g => g.GetURLRequestContext) = none) →
      Create dcheck_is_on heap fill browser_context method url delegate = Outcome.aborted) ∧
    (dcheck_is_on = false →
      (browser_context.bind (fun c => c.url_request_context_getter)).bind
        (fun g => g.GetURLRequestContext) = none →
      Create dcheck_is_on heap fill browser_context method url delegate = Outcome.undefined) ∧
    ∀ s, Create dcheck_is_on heap fill browser_context method url delegate
        = Outcome.returned s →
      s.request_.url = url ∧
      s.request_.priority = RequestPriority.DEFAULT_PRIORITY ∧
      s.request_.method = method ∧
      s.request_.extra_request_headers = ⟨[]⟩ ∧
      s.delegate_ = delegate ∧
      ((s.heap.data s.buffer_.addr).length : Int) = kBufferSize ∧
      s.posts = [] := by
  have hprops : ∀ s : AtomURLRequest,
      Outcome.returned
        { delegate_ := delegate
          request_ :=
            { CreateRequest url RequestPriority.DEFAULT_PRIORITY with method := method }
          buffer_ := ⟨heap.length⟩
          response_headers_ := none
          heap := heap ++ [List.replicate kBufferSize.toNat fill]
          posts := [] } = Outcome.returned s →
      s.request_.url = url ∧
      s.request_.priority = RequestPriority.DEFAULT_PRIORITY ∧
      s.request_.method = method ∧
      s.request_.extra_request_headers = ⟨[]⟩ ∧
      s.delegate_ = delegate ∧
      ((s.heap.data s.buffer_.addr).length : Int) = kBufferSize ∧
      s.posts = [] := by
    intro s hs
    simp only [Outcome.returned.injEq] at hs
    subst hs
    refine ⟨rfl, rfl, rfl, rfl, rfl, ?_, rfl⟩
    simp only [Heap.data, List.getD_eq_getElem?_getD, List.getElem?_concat_length,
      Option.getD_some, List.length_replicate]
    exact Int.toNat_of_nonneg (by decide)
  have hurl : url.isEmpty = true ↔ url = "" := isEmpty_iff_eq_empty url
  rcases browser_context with _ | ⟨_ | ⟨_ | c⟩⟩
  · cases dcheck_is_on <;>
      simp [Create, DCHECK, deref, Outcome.andThen]
  · cases dcheck_is_on <;> cases hb : url.isEmpty <;>
      simp [Create, DCHECK, deref, Outcome.andThen, hb]
  · cases dcheck_is_on <;> cases hb : url.isEmpty <;>
      simp [Create, DCHECK, deref, Outcome.andThen, hb]
  · cases dcheck_is_on <;> cases hb : url.isEmpty
    · have hu : url ≠ "" := fun e => by rw [hurl.mpr e] at hb; exact absurd hb (by simp)
      refine ⟨fun _ _ => ⟨_, rfl⟩, by simp, by simp, ?_⟩
      simpa [Create, DCHECK, deref, Outcome.andThen, hb, Heap.alloc] using hprops
    · refine ⟨fun _ _ => ⟨_, rfl⟩, by simp, by simp, ?_⟩
      simpa [Create, DCHECK, deref, Outcome.andThen, hb, Heap.alloc] using hprops
    · have hu : url ≠ "" := fun e => by rw [hurl.mpr e] at hb; exact absurd hb (by simp)
      refine ⟨fun _ _ =>
        ⟨{ delegate_ := delegate
           request_ :=
             { CreateRequest url RequestPriority.DEFAULT_PRIORITY with method := method }
           buffer_ := ⟨heap.length⟩
           response_headers_ := none
           heap := heap ++ [List.replicate kBufferSize.toNat fill]
           posts := [] },
          by simp [Create, DCHECK, deref, Outcome.andThen, hb, Heap.alloc]⟩, ?_, by simp, ?_⟩
      · intro _ h
        rcases h with h | h
        · exact absurd h hu
        · simp at h
      · simpa [Create, DCHECK, deref, Outcome.andThen, hb, Heap.alloc] using hprops
    · have hu : url = "" := hurl.mp hb
      refine ⟨?_, ?_, by simp, ?_⟩
      · intro _ h
        rcases h with h | h
        · exact absurd hu h
        · simp at h
      · intro _ _
        simp [Create, DCHECK, deref, Outcome.andThen, hb]
      · simp [Create, DCHECK, deref, Outcome.andThen, hb]

/-! ## Basic steps of the read loop -/

theorem CopyAndPostBuffer_fst (env : Env) (s : AtomURLRequest) (n : Int) :
    (CopyAndPostBuffer env s n).1 = env.post_ok s.posts.length := rfl

theorem CopyAndPostBuffer_snd (env : Env) (s : AtomURLRequest) (n : Int) :
    (CopyAndPostBuffer env s n).2 =
      { s with heap := s.heap ++ [memcpy (s.heap.data s.buffer_.addr) n],
               posts := s.posts ++ [dataPost ⟨s.heap.length, n⟩] } := rfl

theorem readIntoBuffer_cons (s : AtomURLRequest) (o : ReadOutcome) (rest : List ReadOutcome)
    (h : s.request_.sync_reads = o :: rest) :
    readIntoBuffer s = (true, o.bytes_read,
      { s with
        request_ :=
          { s.request_ with
            status := o.status, sync_reads := rest,
            calls := s.request_.calls ++ [RequestCall.Read s.buffer_ kBufferSize] },
        heap := s.heap.write s.buffer_.addr kBufferSize o.data }) := by
  simp [readIntoBuffer, URLRequest.Read, h]

theorem readIntoBuffer_nil (s : AtomURLRequest) (h : s.request_.sync_reads = []) :
    readIntoBuffer s = (false, s.request_.failed_read.bytes_read,
      { s with
        request_ :=
          { s.request_ with
            status := s.request_.failed_read.status,
            calls := s.request_.calls ++ [RequestCall.Read s.buffer_ kBufferSize] },
        heap := s.heap.write s.buffer_.addr kBufferSize s.request_.failed_read.data }) := by
  simp [readIntoBuffer, URLRequest.Read, h]

theorem readIntoBuffer_posts (s : AtomURLRequest) : (readIntoBuffer s).2.2.posts = s.posts := by
  cases h : s.request_.sync_reads with
  | nil => rw [readIntoBuffer_nil s h]
  | cons o rest => rw [readIntoBuffer_cons s o rest h]

theorem readIntoBuffer_length (s : AtomURLRequest) (h : (readIntoBuffer s).1 = true) :
    (readIntoBuffer s).2.2.request_.sync_reads.length + 1 = s.request_.sync_reads.length := by
  cases hs : s.request_.sync_reads with
  | nil => rw [readIntoBuffer_nil s hs] at h; simp at h
  | cons o rest => rw [readIntoBuffer_cons s o rest hs]; simp

/-- The loop never runs out of fuel: more fuel than `sync_reads` has entries
changes nothing. -/
theorem readLoop_fuel (env : Env) (fuel : Nat) :
    ∀ (s : AtomURLRequest) (n : Int), s.request_.sync_reads.length < fuel →
      readLoop env fuel s n = readLoop env (s.request_.sync_reads.length + 1) s n := by
  induction fuel with
  | zero => intro s n h; omega
  | succ fuel ih =>
    intro s n h
    unfold readLoop
    by_cases hc : (!s.request_.status.is_success || decide (n ≤ 0)) = true
    · simp only [hc, if_true]
    · simp only [hc, Bool.false_eq_true, if_false]
      by_cases hp : (!(CopyAndPostBuffer env s n).1) = true
      · simp only [hp, if_true]
      · simp only [hp, Bool.false_eq_true, if_false]
        by_cases hr : (readIntoBuffer (CopyAndPostBuffer env s n).2).1 = true
        · simp only [hr, if_true]
          have hl := readIntoBuffer_length _ hr
          have hq : (CopyAndPostBuffer env s n).2.request_ = s.request_ := rfl
          rw [hq] at hl
          rw [ih _ _ (by omega), ← hl]
        · simp only [hr, Bool.false_eq_true, if_false]

/-- With every hand-off succeeding, the loop posts data notifications only
and is left by falling through, never by the early return. -/
theorem readLoop_posts (env : Env) (hok : env.allPostsSucceed) (fuel : Nat) :
    ∀ (s : AtomURLRequest) (n : Int),
      ∃ bufs : List IOBufferWithSize,
        (readLoop env fuel s n).1 = LoopExit.fell_through ∧
        (readLoop env fuel s n).2.posts = s.posts ++ bufs.map dataPost := by
  induction fuel with
  | zero => intro s n; exact ⟨[], by simp [readLoop], by simp [readLoop]⟩
  | succ fuel ih =>
    intro s n
    unfold readLoop
    by_cases hc : (!s.request_.status.is_success || decide (n ≤ 0)) = true
    · simp only [hc, if_true]
      exact ⟨[], by simp, by simp⟩
    · simp only [hc, Bool.false_eq_true, if_false]
      have hp : (!(CopyAndPostBuffer env s n).1) = false := by
        rw [CopyAndPostBuffer_fst, hok]; rfl
      simp only [hp, Bool.false_eq_true, if_false]
      by_cases hr : (readIntoBuffer (CopyAndPostBuffer env s n).2).1 = true
      · simp only [hr, if_true]
        obtain ⟨bufs, h1, h2⟩ := ih (readIntoBuffer (CopyAndPostBuffer env s n).2).2.2
          (readIntoBuffer (CopyAndPostBuffer env s n).2).2.1
        refine ⟨⟨s.heap.length, n⟩ :: bufs, h1, ?_⟩
        rw [h2, readIntoBuffer_posts, CopyAndPostBuffer_snd]
        simp
      · simp only [hr, Bool.false_eq_true, if_false]
        refine ⟨[⟨s.heap.length, n⟩], by simp, ?_⟩
        rw [readIntoBuffer_posts, CopyAndPostBuffer_snd]
        simp

/-- The posts of one call of `OnReadCompleted` when every hand-off succeeds:
data notifications, then "completed" unless the status it ends with is
I/O-pending. -/
theorem OnReadCompleted_posts (env : Env) (hok : env.allPostsSucceed) (s : AtomURLRequest)
    (n : Int) :
    ∃ bufs : List IOBufferWithSize,
      (OnReadCompleted env s n).posts = s.posts ++ bufs.map dataPost ++
        (if (OnReadCompleted env s n).request_.status.is_io_pending then []
         else [toUI Task.InformDelegateResponseCompleted]) := by
  obtain ⟨bufs, h1, h2⟩ := readLoop_posts env hok (s.request_.sync_reads.length + 1) s n
  refine ⟨bufs, ?_⟩
  unfold OnReadCompleted
  generalize readLoop env (s.request_.sync_reads.length + 1) s n = r at h1 h2
  obtain ⟨e, s1⟩ := r
  simp only at h1 h2
  subst h1
  simp only
  by_cases hpend : s1.request_.status.is_io_pending = true
  · simp [hpend, h2]
  · simp [hpend, h2, PostTask, toUI]

theorem ReadResponse_posts (env : Env) (hok : env.allPostsSucceed) (s : AtomURLRequest) :
    ∃ bufs : List IOBufferWithSize,
      (ReadResponse env s).posts = s.posts ++ bufs.map dataPost ++
        (if (ReadResponse env s).request_.status.is_io_pending then []
         else [toUI Task.InformDelegateResponseCompleted]) := by
  unfold ReadResponse
  by_cases hs : s.request_.status.is_success = true
  · simp only [hs, if_true]
    by_cases hr : (readIntoBuffer s).1 = true
    · simp only [hr, Bool.not_true, Bool.false_eq_true, if_false]
      have := OnReadCompleted_posts env hok (readIntoBuffer s).2.2 (readIntoBuffer s).2.1
      rwa [readIntoBuffer_posts] at this
    · simp only [hr, Bool.not_false, if_true]
      have := OnReadCompleted_posts env hok (readIntoBuffer s).2.2 (-1)
      rwa [readIntoBuffer_posts] at this
  · simp only [hs, if_false]
    exact OnReadCompleted_posts env hok s 0

theorem OnResponseStarted_posts (env : Env) (hok : env.allPostsSucceed) (s : AtomURLRequest) :
    ∃ bufs : List IOBufferWithSize,
      (OnResponseStarted env s).posts =
        s.posts ++ toUI Task.InformDelegateResponseStarted :: bufs.map dataPost ++
        (if (OnResponseStarted env s).request_.status.is_io_pending then []
         else [toUI Task.InformDelegateResponseCompleted]) := by
  unfold OnResponseStarted
  simp only
  generalize hs1 : (if s.request_.status.is_success = true then
      { s with response_headers_ := s.request_.response_headers } else s) = s1
  have hp : s1.posts = s.posts := by
    rw [← hs1]; split <;> rfl
  obtain ⟨bufs, h⟩ := ReadResponse_posts env hok
    (PostTask env s1 BrowserThread.UI Task.InformDelegateResponseStarted).2
  refine ⟨bufs, ?_⟩
  rw [h]
  simp [PostTask, hp, toUI]

/-! ## Whole sessions -/

theorem transportReadCompleted_posts (env : Env) (hok : env.allPostsSucceed) (s : AtomURLRequest)
    (c : ReadCompletion) :
    ∃ bufs : List IOBufferWithSize,
      (transportReadCompleted env s c).posts = s.posts ++ bufs.map dataPost ++
        (if (transportReadCompleted env s c).request_.status.is_io_pending then []
         else [toUI Task.InformDelegateResponseCompleted]) :=
  OnReadCompleted_posts env hok _ c.bytes_read

theorem completeReads_posts (env : Env) (hok : env.allPostsSucceed) (pre : List PostedTask) :
    ∀ (cs : List ReadCompletion) (s : AtomURLRequest) (bufs0 : List IOBufferWithSize),
      s.posts = pre ++ bufs0.map dataPost ++
        (if s.request_.status.is_io_pending then []
         else [toUI Task.InformDelegateResponseCompleted]) →
      pendingReadsCompleted env s cs = true →
      ∃ bufs : List IOBufferWithSize,
        (completeReads env s cs).posts =
          pre ++ bufs.map dataPost ++ [toUI Task.InformDelegateResponseCompleted] := by
  intro cs
  induction cs with
  | nil =>
    intro s bufs0 hs hp
    have hpend : s.request_.status.is_io_pending = false := by
      simpa [pendingReadsCompleted] using hp
    refine ⟨bufs0, ?_⟩
    simpa [completeReads, hpend] using hs
  | cons c rest ih =>
    intro s bufs0 hs hp
    simp only [pendingReadsCompleted, Bool.and_eq_true] at hp
    obtain ⟨bufs1, h1⟩ := transportReadCompleted_posts env hok s c
    have hs2 : (transportReadCompleted env s c).posts =
        pre ++ (bufs0 ++ bufs1).map dataPost ++
          (if (transportReadCompleted env s c).request_.status.is_io_pending then []
           else [toUI Task.InformDelegateResponseCompleted]) := by
      rw [h1, hs]
      simp [hp.1]
    obtain ⟨bufs, h⟩ := ih (transportReadCompleted env s c) (bufs0 ++ bufs1) hs2 hp.2
    exact ⟨bufs, by simpa [completeReads] using h⟩

theorem authRequired_posts (env : Env) (challenges : List AuthChallengeInfo) :
    ∀ s : AtomURLRequest,
      (challenges.foldl (OnAuthRequired env) s).posts = s.posts ++ challenges.map authPost := by
  induction challenges with
  | nil => intro s; simp
  | cons a rest ih =>
    intro s
    rw [List.foldl_cons, ih]
    simp [OnAuthRequired, PostTask, authPost, toUI]

theorem runSession_posts (env : Env) (hok : env.allPostsSucceed) (s : AtomURLRequest)
    (challenges : List AuthChallengeInfo) (start : ResponseStart)
    (completions : List ReadCompletion)
    (hwb : wellBehaved env s challenges start completions = true) :
    ∃ bufs : List IOBufferWithSize,
      (runSession env s challenges start completions).posts =
        s.posts ++ (challenges.map authPost ++
          toUI Task.InformDelegateResponseStarted :: bufs.map dataPost ++
          [toUI Task.InformDelegateResponseCompleted]) := by
  obtain ⟨bufs0, h0⟩ := OnResponseStarted_posts env hok
    (atResponseStart (challenges.foldl (OnAuthRequired env) s) start)
  have h1 : (transportResponseStarted env (challenges.foldl (OnAuthRequired env) s) start).posts
      = (s.posts ++ challenges.map authPost ++ [toUI Task.InformDelegateResponseStarted])
        ++ bufs0.map dataPost ++
        (if (transportResponseStarted env (challenges.foldl (OnAuthRequired env) s)
              start).request_.status.is_io_pending then []
         else [toUI Task.InformDelegateResponseCompleted]) := by
    unfold transportResponseStarted
    rw [h0]
    simp [authRequired_posts, atResponseStart]
  obtain ⟨bufs, h⟩ := completeReads_posts env hok _ completions _ bufs0 h1 hwb
  exact ⟨bufs, by simpa [runSession] using h⟩

theorem newPosts_of_append (s t : AtomURLRequest) (l : List PostedTask)
    (h : t.posts = s.posts ++ l) : newPosts s t = l := by
  simp [newPosts, h]

theorem uiNotifications_lifecycle (challenges : List AuthChallengeInfo)
    (bufs : List IOBufferWithSize) :
    uiNotifications (challenges.map authPost ++
        toUI Task.InformDelegateResponseStarted :: bufs.map dataPost ++
        [toUI Task.InformDelegateResponseCompleted]) =
      challenges.map Task.InformDelegateAuthenticationRequired ++
        Task.InformDelegateResponseStarted :: bufs.map Task.InformDelegateResponseData ++
        [Task.InformDelegateResponseCompleted] := by
  have ha : ∀ l : List AuthChallengeInfo,
      ((l.map authPost).filter (fun p => p.thread = BrowserThread.UI)).map (fun p => p.task)
        = l.map Task.InformDelegateAuthenticationRequired := by
    intro l
    induction l with
    | nil => rfl
    | cons a rest ih => simpa [authPost, toUI] using ih
  have hd : ∀ l : List IOBufferWithSize,
      ((l.map dataPost).filter (fun p => p.thread = BrowserThread.UI)).map (fun p => p.task)
        = l.map Task.InformDelegateResponseData := by
    intro l
    induction l with
    | nil => rfl
    | cons a rest ih => simpa [dataPost, toUI] using ih
  simp only [uiNotifications, List.filter_append, List.map_append, ha, List.filter_cons, toUI,
    decide_True, if_true, List.map_cons, hd, List.filter_nil, List.map_nil, List.cons_append]

theorem dropWhile_data (bufs : List IOBufferWithSize) (l : List Task) :
    List.dropWhile Task.isData
        (bufs.map Task.InformDelegateResponseData ++ Task.InformDelegateResponseCompleted :: l)
      = Task.InformDelegateResponseCompleted :: l := by
  induction bufs with
  | nil => simp [List.dropWhile, Task.isData]
  | cons b rest ih => simp [List.dropWhile, Task.isData]

theorem dropWhile_auth (challenges : List AuthChallengeInfo) (l : List Task) :
    List.dropWhile Task.isAuthRequired
        (challenges.map Task.InformDelegateAuthenticationRequired ++
          Task.InformDelegateResponseStarted :: l)
      = Task.InformDelegateResponseStarted :: l := by
  induction challenges with
  | nil => simp [List.dropWhile, Task.isAuthRequired]
  | cons b rest ih => simp [List.dropWhile, Task.isAuthRequired]

theorem matchesLifecycle_shape (challenges : List AuthChallengeInfo)
    (bufs : List IOBufferWithSize) :
    matchesLifecycle (challenges.map Task.InformDelegateAuthenticationRequired ++
        Task.InformDelegateResponseStarted :: bufs.map Task.InformDelegateResponseData ++
        [Task.InformDelegateResponseCompleted]) = true := by
  unfold matchesLifecycle
  rw [List.append_assoc, List.cons_append, dropWhile_auth]
  simp only [Task.isResponseStarted, Bool.true_and]
  unfold matchesDataCompleted
  rw [dropWhile_data]
  rfl

theorem countP_shape (challenges : List AuthChallengeInfo) (bufs : List IOBufferWithSize) :
    (challenges.map Task.InformDelegateAuthenticationRequired ++
        Task.InformDelegateResponseStarted :: bufs.map Task.InformDelegateResponseData ++
        [Task.InformDelegateResponseCompleted]).countP Task.isResponseStarted = 1 ∧
    (challenges.map Task.InformDelegateAuthenticationRequired ++
        Task.InformDelegateResponseStarted :: bufs.map Task.InformDelegateResponseData ++
        [Task.InformDelegateResponseCompleted]).countP Task.isCompleted = 1 := by
  have ha : ∀ (p : Task → Bool), (∀ a, p (Task.InformDelegateAuthenticationRequired a) = false) →
      (challenges.map Task.InformDelegateAuthenticationRequired).countP p = 0 := by
    intro p hp
    rw [List.countP_eq_zero]
    intro t ht
    obtain ⟨a, _, rfl⟩ := List.mem_map.mp ht
    simp [hp a]
  have hd : ∀ (p : Task → Bool), (∀ a, p (Task.InformDelegateResponseData a) = false) →
      (bufs.map Task.InformDelegateResponseData).countP p = 0 := by
    intro p hp
    rw [List.countP_eq_zero]
    intro t ht
    obtain ⟨a, _, rfl⟩ := List.mem_map.mp ht
    simp [hp a]
  constructor
  · simp [List.countP_append, List.countP_cons, ha Task.isResponseStarted (fun _ => rfl),
      hd Task.isResponseStarted (fun _ => rfl), Task.isResponseStarted]
  · simp [List.countP_append, List.countP_cons, ha Task.isCompleted (fun _ => rfl),
      hd Task.isCompleted (fun _ => rfl), Task.isCompleted]

/-- C1 (as amended).  When every hand-off succeeds and the transport is well
behaved (it reports challenges, then the start of the response, then completes
exactly the reads left pending), the posts of the session are the challenges,
one "response started", data notifications and one "completed", in this
order: the UI notifications match `auth-required* response-started data*
completed` and hold exactly one "response started" and one "completed". -/
theorem session_lifecycle_pattern (env : Env) (hok : env.allPostsSucceed) (s : AtomURLRequest)
    (challenges : List AuthChallengeInfo) (start : ResponseStart)
    (completions : List ReadCompletion)
    (hwb : wellBehaved env s challenges start completions = true) :
    (∃ bufs : List IOBufferWithSize,
      newPosts s (runSession env s challenges start completions) =
        challenges.map authPost ++
          toUI Task.InformDelegateResponseStarted :: bufs.map dataPost ++
          [toUI Task.InformDelegateResponseCompleted]) ∧
    matchesLifecycle
      (uiNotifications (newPosts s (runSession env s challenges start completions))) = true ∧
    (uiNotifications (newPosts s (runSession env s challenges start completions))).countP
      Task.isResponseStarted = 1 ∧
    (uiNotifications (newPosts s (runSession env s challenges start completions))).countP
      Task.isCompleted = 1 := by
  obtain ⟨bufs, h⟩ := runSession_posts env hok s challenges start completions hwb
  have hn := newPosts_of_append s _ _ h
  refine ⟨⟨bufs, hn⟩, ?_, ?_, ?_⟩
  · rw [hn, uiNotifications_lifecycle]; exact matchesLifecycle_shape challenges bufs
  · rw [hn, uiNotifications_lifecycle]; exact (countP_shape challenges bufs).1
  · rw [hn, uiNotifications_lifecycle]; exact (countP_shape challenges bufs).2

/-! ## The heap -/

theorem Heap.data_append_new (h : Heap) (c : Bytes) : Heap.data (h ++ [c]) h.length = c := by
  simp [Heap.data, List.getD_eq_getElem?_getD]

theorem Heap.data_append_old (h : Heap) (c : Bytes) (a : Nat) (ha : a < h.length) :
    Heap.data (h ++ [c]) a = Heap.data h a := by
  simp [Heap.data, List.getD_eq_getElem?_getD, List.getElem?_append_left ha]

theorem Heap.length_write (h : Heap) (a : Nat) (sz : Int) (src : Bytes) :
    (Heap.write h a sz src).length = h.length := by
  simp [Heap.write]

theorem Heap.data_write_other (h : Heap) (a b : Nat) (sz : Int) (src : Bytes) (hab : a ≠ b) :
    Heap.data (Heap.write h a sz src) b = Heap.data h b := by
  simp [Heap.data, Heap.write, List.getD_eq_getElem?_getD, List.getElem?_set_ne hab]

theorem Heap.data_write_same (h : Heap) (a : Nat) (sz : Int) (src : Bytes) (ha : a < h.length) :
    Heap.data (Heap.write h a sz src) a = overwrite (Heap.data h a) (src.take sz.toNat) := by
  simp [Heap.data, Heap.write, List.getD_eq_getElem?_getD, List.getElem?_set_self, ha]

theorem length_overwrite (old src : Bytes) : (overwrite old src).length = old.length := by
  simp only [overwrite, List.length_take, List.length_append, List.length_drop]
  omega

theorem take_overwrite (old src : Bytes) (h : src.length ≤ old.length) :
    (overwrite old src).take src.length = src := by
  simp only [overwrite, List.take_take, Nat.min_eq_left h]
  rw [List.take_append_of_le_length (le_refl _), List.take_length]

theorem live_of_capacity (h : Heap) (a : Nat)
    (hc : ((h.data a).length : Int) = kBufferSize) : a < h.length := by
  by_contra hn
  have he : h.data a = [] := by
    simp [Heap.data, List.getD_eq_getElem?_getD, List.getElem?_eq_none (Nat.le_of_not_lt hn)]
  rw [he] at hc
  exact absurd hc (by decide)

/-- C2.  For `1 ≤ N ≤ kBufferSize` and a live read buffer of `kBufferSize`
bytes, `CopyAndPostBuffer N` posts one data notification to the UI thread; its
buffer is a new object, different from the read buffer, of size exactly `N`,
holding the first `N` bytes the read buffer has at the time of the call; the
result is the result of the hand-off.  Whatever is written into the read
buffer afterwards, by the next `Read` in particular, the posted copy keeps
these contents. -/
theorem CopyAndPostBuffer_copy (env : Env) (s : AtomURLRequest) (N : Int)
    (h1 : 1 ≤ N) (h2 : N ≤ kBufferSize)
    (hcap : ((s.heap.data s.buffer_.addr).length : Int) = kBufferSize) :
    ∃ copy : IOBufferWithSize,
      (CopyAndPostBuffer env s N).2.posts = s.posts ++ [dataPost copy] ∧
      (CopyAndPostBuffer env s N).1 = env.post_ok s.posts.length ∧
      copy.size_ = N ∧
      copy.addr ≠ s.buffer_.addr ∧
      (((CopyAndPostBuffer env s N).2.heap.data copy.addr).length : Int) = N ∧
      (CopyAndPostBuffer env s N).2.heap.data copy.addr
        = (s.heap.data s.buffer_.addr).take N.toNat ∧
      (CopyAndPostBuffer env s N).2.heap.data s.buffer_.addr = s.heap.data s.buffer_.addr ∧
      (∀ (dest_size : Int) (src : Bytes),
        ((CopyAndPostBuffer env s N).2.heap.write s.buffer_.addr dest_size src).data copy.addr
          = (s.heap.data s.buffer_.addr).take N.toNat) ∧
      (readIntoBuffer (CopyAndPostBuffer env s N).2).2.2.heap.data copy.addr
        = (s.heap.data s.buffer_.addr).take N.toNat ∧
      (readIntoBuffer (CopyAndPostBuffer env s N).2).2.2.posts = s.posts ++ [dataPost copy] := by
  have hbuf : s.buffer_.addr < s.heap.length := live_of_capacity _ _ hcap
  have hne : s.buffer_.addr ≠ s.heap.length := Nat.ne_of_lt hbuf
  have hcopy : Heap.data (s.heap ++ [memcpy (s.heap.data s.buffer_.addr) N]) s.heap.length
      = (s.heap.data s.buffer_.addr).take N.toNat := Heap.data_append_new _ _
  refine ⟨⟨s.heap.length, N⟩, rfl, rfl, rfl, fun e => hne e.symm, ?_, hcopy, ?_, ?_, ?_, ?_⟩
  · rw [CopyAndPostBuffer_snd]
    simp only [hcopy, List.length_take]
    have hN : (N.toNat : Int) = N := Int.toNat_of_nonneg (by omega)
    omega
  · rw [CopyAndPostBuffer_snd]
    exact Heap.data_append_old _ _ _ hbuf
  · intro dest_size src
    rw [CopyAndPostBuffer_snd]
    simp only
    rw [Heap.data_write_other _ _ _ _ _ hne, hcopy]
  · have hw : ∀ src : Bytes,
        Heap.data (Heap.write (CopyAndPostBuffer env s N).2.heap s.buffer_.addr kBufferSize src)
          s.heap.length = (s.heap.data s.buffer_.addr).take N.toNat := by
      intro src
      rw [CopyAndPostBuffer_snd]
      simp only
      rw [Heap.data_write_other _ _ _ _ _ hne, hcopy]
    cases hs : (CopyAndPostBuffer env s N).2.request_.sync_reads with
    | nil => rw [readIntoBuffer_nil _ hs]; exact hw _
    | cons o rest => rw [readIntoBuffer_cons _ o rest hs]; exact hw _
  · rw [readIntoBuffer_posts]; rfl

/-- C5.  When the status is success at `OnResponseStarted` and the first read
fails at once (`Read` returns false) leaving a status that is neither success
nor I/O-pending, the posts are "response started" followed by "completed",
with no data notification, and the session ends with that failure status.
A call of `OnReadCompleted` entered with a status that is neither success nor
I/O-pending posts "completed" and does nothing else. -/
theorem read_error_completes_without_data (env : Env) (s : AtomURLRequest) :
    (s.request_.status.is_success = true → s.request_.sync_reads = [] →
      s.request_.failed_read.status.is_success = false →
      s.request_.failed_read.status.is_io_pending = false →
      (OnResponseStarted env s).posts =
        s.posts ++ [toUI Task.InformDelegateResponseStarted,
                    toUI Task.InformDelegateResponseCompleted] ∧
      (OnResponseStarted env s).request_.status = s.request_.failed_read.status ∧
      (OnResponseStarted env s).request_.status.is_success = false) ∧
    (∀ bytes_read : Int, s.request_.status.is_success = false →
      s.request_.status.is_io_pending = false →
      OnReadCompleted env s bytes_read =
        { s with posts := s.posts ++ [toUI Task.InformDelegateResponseCompleted] }) := by
  constructor
  · intro hs hr hf hp
    have key : OnResponseStarted env s =
        { s with
          response_headers_ := s.request_.response_headers,
          request_ :=
            { s.request_ with
              status := s.request_.failed_read.status,
              calls := s.request_.calls ++ [RequestCall.Read s.buffer_ kBufferSize] },
          heap := s.heap.write s.buffer_.addr kBufferSize s.request_.failed_read.data,
          posts := s.posts ++ [toUI Task.InformDelegateResponseStarted,
                               toUI Task.InformDelegateResponseCompleted] } := by
      simp [OnResponseStarted, ReadResponse, OnReadCompleted, readLoop, PostTask, hs, hr, hp,
        readIntoBuffer, URLRequest.Read, toUI]
    rw [key]
    exact ⟨rfl, rfl, hf⟩
  · intro n hs hp
    simp [OnReadCompleted, readLoop, PostTask, hs, hp, toUI]

/-! ## Streaming a body -/

theorem kBufferSize_toNat : (kBufferSize.toNat : Int) = kBufferSize := by decide

theorem data_copiesAt (chunks : List Bytes) :
    ∀ h : Heap, (copiesAt h.length chunks).map (fun b => Heap.data (h ++ chunks) b.addr)
      = chunks := by
  induction chunks with
  | nil => intro h; rfl
  | cons c cs ih =>
    intro h
    have e : h ++ c :: cs = (h ++ [c]) ++ cs := by simp
    have hc : Heap.data (h ++ c :: cs) h.length = c := by
      simp [Heap.data, List.getD_eq_getElem?_getD, List.getElem?_append_right (le_refl h.length)]
    have hl : (h ++ [c]).length = h.length + 1 := by simp
    have := ih (h ++ [c])
    rw [hl, ← e] at this
    simp only [copiesAt, List.map_cons, hc, this]

theorem size_copiesAt (chunks : List Bytes) :
    ∀ base : Nat, (copiesAt base chunks).map (fun b => b.size_)
      = chunks.map (fun c => (c.length : Int)) := by
  induction chunks with
  | nil => intro base; rfl
  | cons c cs ih => intro base; simp [copiesAt, ih]

theorem set_append_one (h : Heap) (a : Nat) (x c : Bytes) (ha : a < h.length) :
    (h ++ [c]).set a x = h.set a x ++ [c] := by
  rw [List.set_append]
  simp [ha]

theorem data_set_same (h : Heap) (a : Nat) (x : Bytes) (ha : a < h.length) :
    Heap.data (h.set a x) a = x := by
  simp [Heap.data, List.getD_eq_getElem?_getD, List.getElem?_set_self ha]

/-- The loop on a stream of non-empty reads followed by a read of 0 bytes:
every chunk is copied to a new object and posted, in order, and the loop is
left when the read of 0 bytes is seen. -/
theorem readLoop_stream (env : Env) (hok : env.allPostsSucceed) (eos : ReadOutcome)
    (rest : List ReadOutcome) (heos : eos.bytes_read = 0) :
    ∀ (reads : List ReadOutcome) (fuel : Nat) (s : AtomURLRequest) (c : Bytes),
      (∀ o ∈ reads, o.status.is_success = true ∧ o.bytes_read = (o.data.length : Int) ∧
        1 ≤ o.data.length ∧ (o.data.length : Int) ≤ kBufferSize) →
      s.request_.sync_reads = reads ++ eos :: rest →
      reads.length < fuel →
      s.request_.status.is_success = true →
      1 ≤ c.length → (c.length : Int) ≤ kBufferSize →
      (s.heap.data s.buffer_.addr).take c.length = c →
      s.buffer_.addr < s.heap.length →
      ((s.heap.data s.buffer_.addr).length : Int) = kBufferSize →
      ∃ buf : Bytes, (buf.length : Int) = kBufferSize ∧
        readLoop env fuel s (c.length : Int) = (LoopExit.fell_through,
          { s with
            request_ :=
              { s.request_ with
                status := eos.status, sync_reads := rest,
                calls := s.request_.calls ++
                  List.replicate (reads.length + 1) (RequestCall.Read s.buffer_ kBufferSize) },
            heap := s.heap.set s.buffer_.addr buf ++ (c :: reads.map (fun o => o.data)),
            posts := s.posts ++
              (copiesAt s.heap.length (c :: reads.map (fun o => o.data))).map dataPost }) := by
  intro reads
  induction reads with
  | nil =>
    intro fuel s c _ hsync hfuel hst hc1 hc2 htake hbuf hcap
    obtain ⟨fuel, rfl⟩ : ∃ f, fuel = f + 1 := ⟨fuel - 1, by omega⟩
    have hpos : ¬ ((c.length : Int) ≤ 0) := by omega
    have hcond : (!s.request_.status.is_success || decide ((c.length : Int) ≤ 0)) = false := by
      simp only [hst, hpos, Bool.not_true, decide_False, Bool.or_false]
    have hpost : (!(CopyAndPostBuffer env s (c.length : Int)).1) = false := by
      rw [CopyAndPostBuffer_fst, hok]; rfl
    have hmem : memcpy (s.heap.data s.buffer_.addr) (c.length : Int) = c := by
      simpa [memcpy] using htake
    have hs1 : (CopyAndPostBuffer env s (c.length : Int)).2.request_.sync_reads
        = eos :: rest := by simpa using hsync
    refine ⟨overwrite (s.heap.data s.buffer_.addr) (eos.data.take kBufferSize.toNat), ?_, ?_⟩
    · rw [length_overwrite]; exact hcap
    · unfold readLoop
      simp only [hcond, hpost, Bool.false_eq_true, if_false]
      rw [readIntoBuffer_cons _ eos rest hs1]
      simp only [if_true]
      have hfin : ∀ (f : Nat) (t : AtomURLRequest), readLoop env f t eos.bytes_read
          = (LoopExit.fell_through, t) := by
        intro f t
        cases f with
        | zero => rfl
        | succ f => simp [readLoop, heos]
      rw [hfin, CopyAndPostBuffer_snd, hmem]
      simp only [Heap.write, Prod.mk.injEq, true_and, List.map_nil, copiesAt, List.map_cons,
        List.length_nil, Nat.zero_add, List.replicate_one]
      rw [set_append_one _ _ _ _ hbuf, Heap.data_append_old _ _ _ hbuf]
  | cons o reads ih =>
    intro fuel s c hreads hsync hfuel hst hc1 hc2 htake hbuf hcap
    obtain ⟨fuel, rfl⟩ : ∃ f, fuel = f + 1 := ⟨fuel - 1, by simp at hfuel; omega⟩
    have hpos : ¬ ((c.length : Int) ≤ 0) := by omega
    have hcond : (!s.request_.status.is_success || decide ((c.length : Int) ≤ 0)) = false := by
      simp only [hst, hpos, Bool.not_true, decide_False, Bool.or_false]
    have hpost : (!(CopyAndPostBuffer env s (c.length : Int)).1) = false := by
      rw [CopyAndPostBuffer_fst, hok]; rfl
    have hmem : memcpy (s.heap.data s.buffer_.addr) (c.length : Int) = c := by
      simpa [memcpy] using htake
    have hs1 : (CopyAndPostBuffer env s (c.length : Int)).2.request_.sync_reads
        = o :: (reads ++ eos :: rest) := by simpa using hsync
    obtain ⟨ho1, ho2, ho3, ho4⟩ := hreads o (List.mem_cons_self _ _)
    have hK := kBufferSize_toNat
    have hfit : o.data.take kBufferSize.toNat = o.data := by
      apply List.take_of_length_le; omega
    have hlen : o.data.length ≤ (s.heap.data s.buffer_.addr).length := by omega
    unfold readLoop
    simp only [hcond, hpost, Bool.false_eq_true, if_false]
    rw [readIntoBuffer_cons _ o (reads ++ eos :: rest) hs1]
    simp only [if_true]
    rw [CopyAndPostBuffer_snd, hmem, ho2]
    simp only [Heap.write, hfit]
    rw [set_append_one _ _ _ _ hbuf, Heap.data_append_old _ _ _ hbuf]
    obtain ⟨buf, hb1, hb2⟩ := ih fuel
      { s with
        request_ :=
          { s.request_ with
            status := o.status, sync_reads := reads ++ eos :: rest,
            calls := s.request_.calls ++ [RequestCall.Read s.buffer_ kBufferSize] },
        heap := s.heap.set s.buffer_.addr (overwrite (s.heap.data s.buffer_.addr) o.data) ++ [c],
        posts := s.posts ++ [dataPost ⟨s.heap.length, (c.length : Int)⟩] }
      o.data (fun o2 h2 => hreads o2 (List.mem_cons_of_mem _ h2)) rfl
      (by simp at hfuel; omega) ho1 ho3 ho4
      (by
        simp only
        rw [Heap.data_append_old _ _ _ (by simpa using hbuf)]
        rw [data_set_same _ _ _ hbuf]
        exact take_overwrite _ _ hlen)
      (by simp; omega)
      (by
        simp only
        rw [Heap.data_append_old _ _ _ (by simpa using hbuf)]
        rw [data_set_same _ _ _ hbuf, length_overwrite]; exact hcap)
    refine ⟨buf, hb1, ?_⟩
    rw [hb2]
    simp only [Prod.mk.injEq, true_and, List.length_cons, List.map_cons, copiesAt,
      List.length_append, List.length_set, List.length_singleton, List.append_assoc,
      List.singleton_append, List.replicate_succ]
    rw [set_append_one _ _ _ _ (by simpa using hbuf), List.set_set]
    simp [List.replicate_succ]

/-- C4.  When the status is success, the transport answers the reads with the
non-empty chunks `reads` (each at most `kBufferSize` bytes, each read
returning true with the length of its chunk) and then with a read of 0 bytes,
and every hand-off succeeds, `OnResponseStarted` posts exactly "response
started", one data notification per chunk, in order, and "completed".  The
posted buffers hold the chunks and have their sizes, so their contents in
order add up to the body, and the session ends with the status of the last
read, a success. -/
theorem OnResponseStarted_streams_body (env : Env) (hok : env.allPostsSucceed)
    (s : AtomURLRequest) (reads : List ReadOutcome) (eos : ReadOutcome)
    (rest : List ReadOutcome)
    (hst : s.request_.status.is_success = true)
    (hsync : s.request_.sync_reads = reads ++ eos :: rest)
    (hreads : ∀ o ∈ reads, o.status.is_success = true ∧ o.bytes_read = (o.data.length : Int) ∧
      1 ≤ o.data.length ∧ (o.data.length : Int) ≤ kBufferSize)
    (heos : eos.bytes_read = 0) (hsucc : eos.status.is_success = true)
    (hpend : eos.status.is_io_pending = false)
    (hcap : ((s.heap.data s.buffer_.addr).length : Int) = kBufferSize) :
    ∃ bufs : List IOBufferWithSize,
      newPosts s (OnResponseStarted env s) =
        toUI Task.InformDelegateResponseStarted :: bufs.map dataPost ++
          [toUI Task.InformDelegateResponseCompleted] ∧
      bufs.map (fun b => (OnResponseStarted env s).heap.data b.addr)
        = reads.map (fun o => o.data) ∧
      bufs.map (fun b => b.size_) = reads.map (fun o => (o.data.length : Int)) ∧
      (bufs.map (fun b => (OnResponseStarted env s).heap.data b.addr)).flatten
        = (reads.map (fun o => o.data)).flatten ∧
      (OnResponseStarted env s).request_.status = eos.status ∧
      (OnResponseStarted env s).request_.status.is_success = true := by
  have hK := kBufferSize_toNat
  have hbuf : s.buffer_.addr < s.heap.length := live_of_capacity _ _ hcap
  cases reads with
  | nil =>
    have hsync2 : s.request_.sync_reads = eos :: rest := by simpa using hsync
    have key : OnResponseStarted env s =
        { s with
          response_headers_ := s.request_.response_headers,
          request_ :=
            { s.request_ with
              status := eos.status, sync_reads := rest,
              calls := s.request_.calls ++ [RequestCall.Read s.buffer_ kBufferSize] },
          heap := s.heap.write s.buffer_.addr kBufferSize eos.data,
          posts := s.posts ++ [toUI Task.InformDelegateResponseStarted,
                               toUI Task.InformDelegateResponseCompleted] } := by
      simp [OnResponseStarted, ReadResponse, OnReadCompleted, readLoop, PostTask, hst, hsync2,
        hpend, heos, readIntoBuffer, URLRequest.Read, toUI]
    refine ⟨[], ?_, ?_, rfl, ?_, ?_, ?_⟩
    · rw [key]; simp [newPosts]
    · rfl
    · rfl
    · rw [key]
    · rw [key]; exact hsucc
  | cons o reads =>
    have hsync2 : s.request_.sync_reads = o :: (reads ++ eos :: rest) := by simpa using hsync
    obtain ⟨ho1, ho2, ho3, ho4⟩ := hreads o (List.mem_cons_self _ _)
    have hfit : o.data.take kBufferSize.toNat = o.data := by
      apply List.take_of_length_le; omega
    have hlen : o.data.length ≤ (s.heap.data s.buffer_.addr).length := by omega
    obtain ⟨s3, hs3⟩ : ∃ s3 : AtomURLRequest, s3 =
        { s with
          response_headers_ := s.request_.response_headers,
          request_ :=
            { s.request_ with
              status := o.status, sync_reads := reads ++ eos :: rest,
              calls := s.request_.calls ++ [RequestCall.Read s.buffer_ kBufferSize] },
          heap := s.heap.set s.buffer_.addr (overwrite (s.heap.data s.buffer_.addr) o.data),
          posts := s.posts ++ [toUI Task.InformDelegateResponseStarted] } := ⟨_, rfl⟩
    have e1 : OnResponseStarted env s = OnReadCompleted env s3 (o.data.length : Int) := by
      simp only [OnResponseStarted, ReadResponse, PostTask, hst, if_true]
      rw [readIntoBuffer_cons _ o (reads ++ eos :: rest) (by simpa using hsync2)]
      simp only [Bool.not_true, Bool.false_eq_true, if_false, Heap.write, hfit, ho2, hs3, toUI]
    have hsync3 : s3.request_.sync_reads = reads ++ eos :: rest := by rw [hs3]
    have hbuf3 : s3.buffer_.addr < s3.heap.length := by rw [hs3]; simpa using hbuf
    have hdata3 : s3.heap.data s3.buffer_.addr = overwrite (s.heap.data s.buffer_.addr) o.data := by
      rw [hs3]; exact data_set_same _ _ _ hbuf
    obtain ⟨buf, hb1, hb2⟩ := readLoop_stream env hok eos rest heos reads
      (s3.request_.sync_reads.length + 1) s3 o.data
      (fun o2 h2 => hreads o2 (List.mem_cons_of_mem _ h2)) hsync3
      (by rw [hsync3]; simp; omega) (by rw [hs3]; exact ho1) ho3 ho4
      (by rw [hdata3]; exact take_overwrite _ _ hlen)
      hbuf3
      (by rw [hdata3, length_overwrite]; exact hcap)
    have key : OnResponseStarted env s =
        { s with
          response_headers_ := s.request_.response_headers,
          request_ :=
            { s.request_ with
              status := eos.status, sync_reads := rest,
              calls := s.request_.calls ++ [RequestCall.Read s.buffer_ kBufferSize] ++
                List.replicate (reads.length + 1) (RequestCall.Read s.buffer_ kBufferSize) },
          heap := s.heap.set s.buffer_.addr buf ++ (o.data :: reads.map (fun o => o.data)),
          posts := s.posts ++ [toUI Task.InformDelegateResponseStarted] ++
            (copiesAt s.heap.length (o.data :: reads.map (fun o => o.data))).map dataPost ++
            [toUI Task.InformDelegateResponseCompleted] } := by
      rw [e1]
      unfold OnReadCompleted
      rw [hb2]
      simp [PostTask, hpend, toUI, hs3, List.set_set]
    refine ⟨copiesAt s.heap.length (o.data :: reads.map (fun o => o.data)), ?_, ?_, ?_, ?_, ?_, ?_⟩
    · rw [key]; simp [newPosts]
    · rw [key]
      have := data_copiesAt (o.data :: reads.map (fun o => o.data))
        (s.heap.set s.buffer_.addr buf)
      simpa using this
    · rw [size_copiesAt]; simp
    · rw [key]
      have := data_copiesAt (o.data :: reads.map (fun o => o.data))
        (s.heap.set s.buffer_.addr buf)
      simp only [List.length_set] at this
      simp only [this, List.map_cons]
    · rw [key]
    · rw [key]; exact hsucc

/-- Whatever the hand-offs do, the loop only adds posts. -/
theorem readLoop_posts_extend (env : Env) (fuel : Nat) :
    ∀ (s : AtomURLRequest) (n : Int),
      ∃ l : List PostedTask, (readLoop env fuel s n).2.posts = s.posts ++ l := by
  induction fuel with
  | zero => intro s n; exact ⟨[], by simp [readLoop]⟩
  | succ fuel ih =>
    intro s n
    unfold readLoop
    by_cases hc : (!s.request_.status.is_success || decide (n ≤ 0)) = true
    · simp only [hc, if_true]
      exact ⟨[], by simp⟩
    · simp only [hc, Bool.false_eq_true, if_false]
      by_cases hp : (!(CopyAndPostBuffer env s n).1) = true
      · simp only [hp, if_true]
        exact ⟨_, by rw [CopyAndPostBuffer_snd]⟩
      · simp only [hp, Bool.false_eq_true, if_false]
        by_cases hr : (readIntoBuffer (CopyAndPostBuffer env s n).2).1 = true
        · simp only [hr, if_true]
          obtain ⟨l, hl⟩ := ih (readIntoBuffer (CopyAndPostBuffer env s n).2).2.2
            (readIntoBuffer (CopyAndPostBuffer env s n).2).2.1
          refine ⟨dataPost ⟨s.heap.length, n⟩ :: l, ?_⟩
          rw [hl, readIntoBuffer_posts, CopyAndPostBuffer_snd]
          simp
        · simp only [hr, Bool.false_eq_true, if_false]
          exact ⟨[dataPost ⟨s.heap.length, n⟩], by
            rw [readIntoBuffer_posts, CopyAndPostBuffer_snd]⟩

/-- A call of `OnReadCompleted` entered with a success status and a positive
byte count starts by posting the data notification for those bytes. -/
theorem OnReadCompleted_posts_data_first (env : Env) (s : AtomURLRequest) (n : Int)
    (hst : s.request_.status.is_success = true) (hn : 0 < n) :
    ∃ l : List PostedTask,
      (OnReadCompleted env s n).posts = s.posts ++ dataPost ⟨s.heap.length, n⟩ :: l := by
  have hpos : ¬ (n ≤ 0) := by omega
  have hloop : ∃ l : List PostedTask,
      (readLoop env (s.request_.sync_reads.length + 1) s n).2.posts
        = s.posts ++ dataPost ⟨s.heap.length, n⟩ :: l := by
    unfold readLoop
    simp only [hst, hpos, Bool.not_true, decide_False, Bool.or_false, Bool.false_eq_true,
      if_false]
    by_cases hp : (!(CopyAndPostBuffer env s n).1) = true
    · simp only [hp, if_true]
      exact ⟨[], by rw [CopyAndPostBuffer_snd]⟩
    · simp only [hp, Bool.false_eq_true, if_false]
      by_cases hr : (readIntoBuffer (CopyAndPostBuffer env s n).2).1 = true
      · simp only [hr, if_true]
        obtain ⟨l, hl⟩ := readLoop_posts_extend env s.request_.sync_reads.length
          (readIntoBuffer (CopyAndPostBuffer env s n).2).2.2
          (readIntoBuffer (CopyAndPostBuffer env s n).2).2.1
        refine ⟨l, ?_⟩
        rw [hl, readIntoBuffer_posts, CopyAndPostBuffer_snd]
        simp
      · simp only [hr, Bool.false_eq_true, if_false]
        exact ⟨[], by rw [readIntoBuffer_posts, CopyAndPostBuffer_snd]⟩
  obtain ⟨l, hl⟩ := hloop
  unfold OnReadCompleted
  generalize readLoop env (s.request_.sync_reads.length + 1) s n = r at hl
  obtain ⟨e, s1⟩ := r
  simp only at hl
  cases e with
  | returned => exact ⟨l, hl⟩
  | fell_through =>
    simp only
    split
    · exact ⟨l ++ [toUI Task.InformDelegateResponseCompleted], by simp [PostTask, hl, toUI]⟩
    · exact ⟨l, hl⟩

/-- C10 (as amended).  `Abort` returns the session as it was, so the read loop
runs after it as it would without it: a call of `OnReadCompleted` entered with
a success status and a positive byte count still starts by posting the data
notification for those bytes.  A session that runs after `Abort` with every
hand-off succeeding and a well-behaved transport posts "completed" exactly
once. -/
theorem Abort_has_no_effect (env : Env) (s : AtomURLRequest) :
    Abort s = s ∧
    (∀ n : Int, s.request_.status.is_success = true → 0 < n →
      ∃ l : List PostedTask,
        newPosts (Abort s) (OnReadCompleted env (Abort s) n)
          = dataPost ⟨s.heap.length, n⟩ :: l) ∧
    (∀ (challenges : List AuthChallengeInfo) (start : ResponseStart)
        (completions : List ReadCompletion),
      env.allPostsSucceed → wellBehaved env (Abort s) challenges start completions = true →
      (uiNotifications (newPosts (Abort s)
        (runSession env (Abort s) challenges start completions))).countP Task.isCompleted
        = 1) := by
  refine ⟨rfl, ?_, ?_⟩
  · intro n hst hn
    obtain ⟨l, hl⟩ := OnReadCompleted_posts_data_first env s n hst hn
    exact ⟨l, newPosts_of_append _ _ _ hl⟩
  · intro challenges start completions hok hwb
    obtain ⟨bufs, h⟩ := runSession_posts env hok (Abort s) challenges start completions hwb
    rw [newPosts_of_append _ _ _ h, uiNotifications_lifecycle]
    exact (countP_shape challenges bufs).2

/-! ## The claims on sample sessions -/

theorem dispatchedSession_buffer :
    ((dispatchedSession.heap.data dispatchedSession.buffer_.addr).length : Int)
      = kBufferSize := by
  show ((List.replicate kBufferSize.toNat 0).length : Int) = kBufferSize
  rw [List.length_replicate]
  exact kBufferSize_toNat

/-- C1, refuted as stated: with a well-behaved transport that delivers twelve
bytes and the end of the stream, and a hand-off of the data notification that
fails, the session posts "response started" and the data notification and
never "completed"; so the pattern does not hold for every session. -/
theorem lifecycle_pattern_fails_when_handoff_fails :
    wellBehaved lossyEnv dispatchedSession [] start12 [] = true ∧
    uiNotifications (newPosts dispatchedSession
        (runSession lossyEnv dispatchedSession [] start12 [])) =
      [Task.InformDelegateResponseStarted, Task.InformDelegateResponseData ⟨1, 12⟩] ∧
    ¬ ∀ (env : Env) (s : AtomURLRequest) (challenges : List AuthChallengeInfo)
        (start : ResponseStart) (completions : List ReadCompletion),
        wellBehaved env s challenges start completions = true →
        matchesLifecycle (uiNotifications (newPosts s
          (runSession env s challenges start completions))) = true := by
  refine ⟨by decide, by decide, ?_⟩
  intro h
  have h1 := h lossyEnv dispatchedSession [] start12 [] (by decide)
  revert h1
  decide

/-- C1 on a sample: a challenge, a response whose first read is left pending,
and the completion of that read with twelve bytes. -/
theorem session_lifecycle_pattern_witness :
    Env.reliable.allPostsSucceed ∧
    wellBehaved Env.reliable dispatchedSession [challenge] startPending [completion12] = true ∧
    uiNotifications (newPosts dispatchedSession
        (runSession Env.reliable dispatchedSession [challenge] startPending [completion12])) =
      [Task.InformDelegateAuthenticationRequired challenge, Task.InformDelegateResponseStarted,
       Task.InformDelegateResponseData ⟨1, 12⟩, Task.InformDelegateResponseCompleted] ∧
    matchesLifecycle (uiNotifications (newPosts dispatchedSession
        (runSession Env.reliable dispatchedSession [challenge] startPending [completion12])))
      = true :=
  ⟨fun _ => rfl, by decide, by decide,
    (session_lifecycle_pattern Env.reliable (fun _ => rfl) dispatchedSession [challenge]
      startPending [completion12] (by decide)).2.1⟩

/-- C2 on a sample: a copy of twelve bytes of the read buffer of the sample
session. -/
theorem CopyAndPostBuffer_copy_witness :
    (1 : Int) ≤ 12 ∧ (12 : Int) ≤ kBufferSize ∧
    ((dispatchedSession.heap.data dispatchedSession.buffer_.addr).length : Int) = kBufferSize ∧
    ∃ copy : IOBufferWithSize,
      (CopyAndPostBuffer lossyEnv dispatchedSession 12).2.posts
        = dispatchedSession.posts ++ [dataPost copy] ∧
      copy.size_ = 12 ∧
      copy.addr ≠ dispatchedSession.buffer_.addr ∧
      (((CopyAndPostBuffer lossyEnv dispatchedSession 12).2.heap.data copy.addr).length : Int)
        = 12 ∧
      (readIntoBuffer (CopyAndPostBuffer lossyEnv dispatchedSession 12).2).2.2.heap.data copy.addr
        = (dispatchedSession.heap.data dispatchedSession.buffer_.addr).take 12 := by
  refine ⟨by decide, by decide, dispatchedSession_buffer, ?_⟩
  obtain ⟨copy, h1, _, h3, h4, h5, _, _, _, h9, _⟩ :=
    CopyAndPostBuffer_copy lossyEnv dispatchedSession 12 (by decide) (by decide)
      dispatchedSession_buffer
  exact ⟨copy, h1, h3, h4, h5, h9⟩

/-- C3 on a sample: full credentials are submitted as given. -/
theorem PassLoginInformation_spec_witness :
    ¬ (("bob" : String) = "" ∨ ("secret" : String) = "") ∧
    PassLoginInformation Env.reliable dispatchedSession "bob" "secret" =
      { dispatchedSession with
        posts := dispatchedSession.posts ++
          [⟨BrowserThread.IO_, Task.DoSetAuth "bob" "secret"⟩] } := by
  have hne : ¬ (("bob" : String) = "" ∨ ("secret" : String) = "") := by decide
  obtain ⟨task, h1, _, h3, _, _⟩ :=
    (PassLoginInformation_spec Env.reliable dispatchedSession "bob" "secret").1
  rw [h3 hne] at h1
  exact ⟨hne, h1⟩

/-- C4 on a sample: the sample session at the start of a response whose body
of twelve bytes comes in one read, followed by the end of the stream. -/
theorem OnResponseStarted_streams_body_witness :
    Env.reliable.allPostsSucceed ∧
    (atResponseStart dispatchedSession start12).request_.status.is_success = true ∧
    (atResponseStart dispatchedSession start12).request_.sync_reads
      = [⟨12, body12, URLRequestStatus.SUCCESS⟩] ++ endOfStream :: [] ∧
    (((atResponseStart dispatchedSession start12).heap.data
      (atResponseStart dispatchedSession start12).buffer_.addr).length : Int) = kBufferSize ∧
    (∃ bufs : List IOBufferWithSize,
      newPosts (atResponseStart dispatchedSession start12)
          (OnResponseStarted Env.reliable (atResponseStart dispatchedSession start12)) =
        toUI Task.InformDelegateResponseStarted :: bufs.map dataPost ++
          [toUI Task.InformDelegateResponseCompleted] ∧
      bufs.map (fun b =>
          (OnResponseStarted Env.reliable (atResponseStart dispatchedSession start12)).heap.data
            b.addr) = [body12] ∧
      bufs.map (fun b => b.size_) = [12]) ∧
    (OnResponseStarted Env.reliable (atResponseStart dispatchedSession start12)).request_.status
      = URLRequestStatus.SUCCESS ∧
    newPosts (atResponseStart dispatchedSession start12)
        (OnResponseStarted Env.reliable (atResponseStart dispatchedSession start12)) =
      [toUI Task.InformDelegateResponseStarted, dataPost ⟨1, 12⟩,
       toUI Task.InformDelegateResponseCompleted] := by
  obtain ⟨bufs, h1, h2, h3, _, h5, _⟩ :=
    OnResponseStarted_streams_body Env.reliable (fun _ => rfl)
      (atResponseStart dispatchedSession start12) [⟨12, body12, URLRequestStatus.SUCCESS⟩]
      endOfStream [] (by decide) (by decide) (by decide) (by decide) (by decide) (by decide)
      dispatchedSession_buffer
  exact ⟨fun _ => rfl, by decide, by decide, dispatchedSession_buffer, ⟨bufs, h1, h2, h3⟩, h5,
    by decide⟩

/-- C5 on a sample: the first read of the sample session fails with error
-101. -/
theorem read_error_completes_without_data_witness :
    (atResponseStart dispatchedSession startReadError).request_.status.is_success = true ∧
    (atResponseStart dispatchedSession startReadError).request_.sync_reads = [] ∧
    (OnResponseStarted lossyEnv (atResponseStart dispatchedSession startReadError)).posts =
      [toUI Task.InformDelegateResponseStarted, toUI Task.InformDelegateResponseCompleted] ∧
    (OnResponseStarted lossyEnv
      (atResponseStart dispatchedSession startReadError)).request_.status
      = URLRequestStatus.FAILED (-101) :=
  ⟨by decide, by decide,
    ((read_error_completes_without_data lossyEnv
      (atResponseStart dispatchedSession startReadError)).1
        (by decide) (by decide) (by decide) (by decide)).1,
    ((read_error_completes_without_data lossyEnv
      (atResponseStart dispatchedSession startReadError)).1
        (by decide) (by decide) (by decide) (by decide)).2.1⟩

/-- C6 on a sample: `Accept` set twice on the sample session, and overwritten
under the name `ACCEPT`. -/
theorem SetHeader_idempotent_overwrite_witness :
    exampleSession.request_.extra_request_headers.Unique ∧
    SetHeader (SetHeader exampleSession "Accept" "text/html") "Accept" "text/html"
      = SetHeader exampleSession "Accept" "text/html" ∧
    (SetHeader (SetHeader exampleSession "Accept" "text/html") "ACCEPT"
      "text/plain").request_.extra_request_headers.GetHeader "Accept" = some "text/plain" := by
  have hu : exampleSession.request_.extra_request_headers.Unique := by
    simp [HttpRequestHeaders.Unique, exampleSession, CreateRequest]
  have h := SetHeader_idempotent_overwrite exampleSession "Accept" "text/html" "text/html"
    "text/plain" hu
  exact ⟨hu, h.1, (h.2.2.2 "ACCEPT" (by decide)).2⟩

/-- C7 on a sample: `X-Missing` removed from the sample session, which has no
such header. -/
theorem RemoveHeader_absent_witness :
    dispatchedSession.request_.extra_request_headers.GetHeader "X-Missing" = none ∧
    RemoveHeader dispatchedSession "X-Missing" = dispatchedSession :=
  ⟨by decide, RemoveHeader_absent dispatchedSession "X-Missing" (by decide)⟩

/-- C9, refuted as stated: in a build without assertions, `Create` with a
usable context and the empty url returns a session, whose request is for the
empty url; so it is not true that no session is produced whenever the url is
empty or the context is not usable. -/
theorem Create_accepts_empty_url :
    (∃ s, Create false [] 0 usableContext "GET" "" none = Outcome.returned s ∧
      s.request_.url = "" ∧ s.request_.method = "GET") ∧
    ¬ ∀ (dcheck_is_on : Bool) (heap : Heap) (fill : Nat)
        (browser_context : Option AtomBrowserContext) (method url : String)
        (delegate : Option Nat),
        (url = "" ∨
          (browser_context.bind (fun c => c.url_request_context_getter)).bind
            (fun g => g.GetURLRequestContext) = none) →
        ∀ s, Create dcheck_is_on heap fill browser_context method url delegate
          ≠ Outcome.returned s := by
  have h1 : ∃ s, Create false [] 0 usableContext "GET" "" none = Outcome.returned s ∧
      s.request_.url = "" ∧ s.request_.method = "GET" := ⟨_, rfl, rfl, rfl⟩
  refine ⟨h1, ?_⟩
  intro h
  obtain ⟨s, hs, _⟩ := h1
  exact h false [] 0 usableContext "GET" "" none (Or.inl rfl) s hs

/-- C9 on a sample: the session created for `GET http://example.test/ok`, in
a build with assertions and in one without; the abort on an empty url and on
a missing context with assertions; the null pointer used without them. -/
theorem Create_spec_witness :
    Create true [] 0 usableContext "GET" "http://example.test/ok" none
      = Outcome.returned exampleSession ∧
    Create false [] 0 usableContext "GET" "http://example.test/ok" none
      = Outcome.returned exampleSession ∧
    exampleSession.request_.url = "http://example.test/ok" ∧
    exampleSession.request_.priority = RequestPriority.DEFAULT_PRIORITY ∧
    exampleSession.request_.method = "GET" ∧
    Create true [] 0 usableContext "GET" "" none = Outcome.aborted ∧
    Create true [] 0 (some ⟨some ⟨none⟩⟩) "GET" "http://example.test/ok" none
      = Outcome.aborted ∧
    Create false [] 0 (some ⟨some ⟨none⟩⟩) "GET" "http://example.test/ok" none
      = Outcome.undefined := by
  have hc : Create true [] 0 usableContext "GET" "http://example.test/ok" none
      = Outcome.returned exampleSession := rfl
  have h := (Create_spec true [] 0 usableContext "GET" "http://example.test/ok" none).2.2.2
    exampleSession hc
  exact ⟨hc, rfl, h.1, h.2.1, h.2.2.1,
    (Create_spec true [] 0 usableContext "GET" "" none).2.1 rfl (Or.inl rfl),
    (Create_spec true [] 0 (some ⟨some ⟨none⟩⟩) "GET" "http://example.test/ok" none).2.1 rfl
      (Or.inr rfl),
    (Create_spec false [] 0 (some ⟨some ⟨none⟩⟩) "GET" "http://example.test/ok" none).2.2.1 rfl
      rfl⟩

/-- C10, refuted as stated: on the sample session, aborted while a read of
twelve bytes is pending, the completion of that read still posts the data
notification; so it is not true that no data notification follows `Abort`. -/
theorem data_posted_after_Abort :
    uiNotifications (newPosts (Abort (atReadCompletion dispatchedSession completion12))
        (OnReadCompleted Env.reliable
          (Abort (atReadCompletion dispatchedSession completion12)) 12)) =
      [Task.InformDelegateResponseData ⟨1, 12⟩, Task.InformDelegateResponseCompleted] ∧
    ¬ ∀ (env : Env) (s : AtomURLRequest) (n : Int),
        (uiNotifications (newPosts (Abort s) (OnReadCompleted env (Abort s) n))).all
          (fun t => !t.isData) = true := by
  refine ⟨by decide, ?_⟩
  intro h
  have h1 := h Env.reliable (atReadCompletion dispatchedSession completion12) 12
  revert h1
  decide

/-- C10 on a sample: the sample session aborted before the response starts. -/
theorem Abort_has_no_effect_witness :
    Abort dispatchedSession = dispatchedSession ∧
    Env.reliable.allPostsSucceed ∧
    wellBehaved Env.reliable (Abort dispatchedSession) [] start12 [] = true ∧
    (uiNotifications (newPosts (Abort dispatchedSession)
      (runSession Env.reliable (Abort dispatchedSession) [] start12 []))).countP
        Task.isCompleted = 1 ∧
    uiNotifications (newPosts (Abort dispatchedSession)
        (runSession Env.reliable (Abort dispatchedSession) [] start12 [])) =
      [Task.InformDelegateResponseStarted, Task.InformDelegateResponseData ⟨1, 12⟩,
       Task.InformDelegateResponseCompleted] :=
  ⟨(Abort_has_no_effect Env.reliable dispatchedSession).1, fun _ => rfl, by decide,
    (Abort_has_no_effect Env.reliable dispatchedSession).2.2 [] start12 [] (fun _ => rfl)
      (by decide), by decide⟩

/-! ## Response headers -/

/-- The value `GetResponseHeaders` returns is the response headers the
transport holds at the time of the call; the snapshot is not consulted. -/
theorem GetResponseHeaders_eq (s : AtomURLRequest) (snapshot : Option HttpResponseHeaders) :
    GetResponseHeaders { s with response_headers_ := snapshot } = s.request_.response_headers :=
  rfl

/-- C11.  On the sample session, challenged with a 401 answer before any
response has started, no "response started" has been posted and the snapshot
is empty, yet `GetResponseHeaders` returns the headers of the 401 answer
instead of nothing.  After a response has started with a 200 answer, the
snapshot holds its headers, and when the headers held by the transport change
afterwards `GetResponseHeaders` returns the changed ones, not the snapshot. -/
theorem GetResponseHeaders_reads_transport :
    (uiNotifications challengedSession.posts).countP Task.isResponseStarted = 0 ∧
    challengedSession.response_headers_ = none ∧
    GetResponseHeaders challengedSession = some headers401 ∧
    startedSession.response_headers_ = some headers200 ∧
    GetResponseHeaders
      { startedSession with
        request_ := { startedSession.request_ with response_headers := some headers401 } }
      = some headers401 := by
  refine ⟨by decide, by decide, by decide, by decide, by decide⟩

/-! ## The read loop case by case -/

theorem readIntoBuffer_buffer (s : AtomURLRequest) : (readIntoBuffer s).2.2.buffer_ = s.buffer_ := by
  cases h : s.request_.sync_reads with
  | nil => rw [readIntoBuffer_nil s h]
  | cons o rest => rw [readIntoBuffer_cons s o rest h]

theorem readIntoBuffer_snapshot (s : AtomURLRequest) :
    (readIntoBuffer s).2.2.response_headers_ = s.response_headers_ := by
  cases h : s.request_.sync_reads with
  | nil => rw [readIntoBuffer_nil s h]
  | cons o rest => rw [readIntoBuffer_cons s o rest h]

theorem readIntoBuffer_calls (s : AtomURLRequest) :
    (readIntoBuffer s).2.2.request_.calls
      = s.request_.calls ++ [RequestCall.Read s.buffer_ kBufferSize] := by
  cases h : s.request_.sync_reads with
  | nil => rw [readIntoBuffer_nil s h]
  | cons o rest => rw [readIntoBuffer_cons s o rest h]

theorem readIntoBuffer_heap (s : AtomURLRequest) :
    ∃ src : Bytes, (readIntoBuffer s).2.2.heap = s.heap.write s.buffer_.addr kBufferSize src := by
  cases h : s.request_.sync_reads with
  | nil => rw [readIntoBuffer_nil s h]; exact ⟨_, rfl⟩
  | cons o rest => rw [readIntoBuffer_cons s o rest h]; exact ⟨_, rfl⟩

theorem readIntoBuffer_true (s : AtomURLRequest) (h : (readIntoBuffer s).1 = true) :
    ∃ o rest, s.request_.sync_reads = o :: rest ∧
      (readIntoBuffer s).2.1 = o.bytes_read ∧
      (readIntoBuffer s).2.2.request_.status = o.status ∧
      (readIntoBuffer s).2.2.request_.sync_reads = rest ∧
      (readIntoBuffer s).2.2.request_.failed_read = s.request_.failed_read := by
  cases hs : s.request_.sync_reads with
  | nil => rw [readIntoBuffer_nil s hs] at h; simp at h
  | cons o rest => rw [readIntoBuffer_cons s o rest hs]; exact ⟨o, rest, rfl, rfl, rfl, rfl, rfl⟩

theorem readIntoBuffer_false (s : AtomURLRequest) (h : (readIntoBuffer s).1 = false) :
    s.request_.sync_reads = [] ∧
      (readIntoBuffer s).2.2.request_.status = s.request_.failed_read.status ∧
      (readIntoBuffer s).2.2.request_.sync_reads = [] := by
  cases hs : s.request_.sync_reads with
  | nil => rw [readIntoBuffer_nil s hs]; exact ⟨rfl, rfl, hs⟩
  | cons o rest => rw [readIntoBuffer_cons s o rest hs] at h; simp at h

/-- The four ways a turn of the loop can go: the check stops the loop, the
hand-off fails, the read returns false, or the read returns true and the loop
goes on from the state the read leaves. -/
theorem readLoop_cases (env : Env)
    (P : AtomURLRequest → Int → LoopExit × AtomURLRequest → Prop)
    (stop : ∀ s n, goesOn (s.request_.status, n) = false → P s n (LoopExit.fell_through, s))
    (fail : ∀ s n, goesOn (s.request_.status, n) = true →
      (CopyAndPostBuffer env s n).1 = false →
      P s n (LoopExit.returned, (CopyAndPostBuffer env s n).2))
    (last : ∀ s n, goesOn (s.request_.status, n) = true →
      (CopyAndPostBuffer env s n).1 = true →
      (readIntoBuffer (CopyAndPostBuffer env s n).2).1 = false →
      P s n (LoopExit.fell_through, (readIntoBuffer (CopyAndPostBuffer env s n).2).2.2))
    (step : ∀ s n res, goesOn (s.request_.status, n) = true →
      (CopyAndPostBuffer env s n).1 = true →
      (readIntoBuffer (CopyAndPostBuffer env s n).2).1 = true →
      P (readIntoBuffer (CopyAndPostBuffer env s n).2).2.2
        (readIntoBuffer (CopyAndPostBuffer env s n).2).2.1 res →
      P s n res) :
    ∀ (fuel : Nat) (s : AtomURLRequest) (n : Int),
      s.request_.sync_reads.length < fuel → P s n (readLoop env fuel s n) := by
  intro fuel
  induction fuel with
  | zero => intro s n h; omega
  | succ fuel ih =>
    intro s n h
    have hg : goesOn (s.request_.status, n)
        = !(!s.request_.status.is_success || decide (n ≤ 0)) := by
      have hn : decide (0 < n) = !decide (n ≤ 0) := by
        rw [← decide_not]; exact decide_eq_decide.mpr Int.not_le.symm
      simp [goesOn, hn]
    unfold readLoop
    by_cases hc : (!s.request_.status.is_success || decide (n ≤ 0)) = true
    · simp only [hc, if_true]
      exact stop s n (by rw [hg, hc]; rfl)
    · have hgo : goesOn (s.request_.status, n) = true := by
        rw [hg]; simpa using hc
      simp only [hc, Bool.false_eq_true, if_false]
      by_cases hp : (!(CopyAndPostBuffer env s n).1) = true
      · simp only [hp, if_true]
        exact fail s n hgo (by simpa using hp)
      · have hpt : (CopyAndPostBuffer env s n).1 = true := by simpa using hp
        simp only [hp, Bool.false_eq_true, if_false]
        by_cases hr : (readIntoBuffer (CopyAndPostBuffer env s n).2).1 = true
        · simp only [hr, if_true]
          have hl := readIntoBuffer_length _ hr
          have hq : (CopyAndPostBuffer env s n).2.request_ = s.request_ := rfl
          rw [hq] at hl
          exact step s n _ hgo hpt hr (ih _ _ (by omega))
        · simp only [hr, Bool.false_eq_true, if_false]
          exact last s n hgo hpt (by simpa using hr)

/-- Whatever the hand-offs do, the loop posts data notifications only, reads
only `kBufferSize` bytes into the read buffer, and keeps the buffer and the
snapshot of the response headers. -/
theorem readLoop_frame (env : Env) (fuel : Nat) (s : AtomURLRequest) (n : Int)
    (hf : s.request_.sync_reads.length < fuel) :
    ∃ (bufs : List IOBufferWithSize) (j : Nat),
      (readLoop env fuel s n).2.posts = s.posts ++ bufs.map dataPost ∧
      (readLoop env fuel s n).2.request_.calls
        = s.request_.calls ++ List.replicate j (RequestCall.Read s.buffer_ kBufferSize) ∧
      (readLoop env fuel s n).2.buffer_ = s.buffer_ ∧
      (readLoop env fuel s n).2.response_headers_ = s.response_headers_ := by
  refine readLoop_cases env
    (fun s n res => ∃ (bufs : List IOBufferWithSize) (j : Nat),
      res.2.posts = s.posts ++ bufs.map dataPost ∧
      res.2.request_.calls
        = s.request_.calls ++ List.replicate j (RequestCall.Read s.buffer_ kBufferSize) ∧
      res.2.buffer_ = s.buffer_ ∧ res.2.response_headers_ = s.response_headers_)
    ?_ ?_ ?_ ?_ fuel s n hf
  · intro s n _
    exact ⟨[], 0, by simp, by simp, rfl, rfl⟩
  · intro s n _ _
    exact ⟨[⟨s.heap.length, n⟩], 0, rfl, by simp [CopyAndPostBuffer_snd], rfl, rfl⟩
  · intro s n _ _ _
    refine ⟨[⟨s.heap.length, n⟩], 1, ?_, ?_, ?_, ?_⟩
    · rw [readIntoBuffer_posts]; rfl
    · rw [readIntoBuffer_calls]; rfl
    · rw [readIntoBuffer_buffer]; rfl
    · rw [readIntoBuffer_snapshot]; rfl
  · intro s n res _ _ _ ih
    obtain ⟨bufs, j, h1, h2, h3, h4⟩ := ih
    rw [readIntoBuffer_posts] at h1
    rw [readIntoBuffer_calls, readIntoBuffer_buffer] at h2
    rw [readIntoBuffer_buffer] at h3
    rw [readIntoBuffer_snapshot] at h4
    refine ⟨⟨s.heap.length, n⟩ :: bufs, j + 1, ?_, ?_, h3, h4⟩
    · rw [h1, CopyAndPostBuffer_snd]; simp
    · rw [h2, CopyAndPostBuffer_snd]; simp [List.replicate_succ]

/-- Whatever the hand-offs do, a call of `OnReadCompleted` posts data
notifications and then at most "completed"; it reads only `kBufferSize`
bytes into the read buffer and keeps the snapshot of the response headers. -/
theorem OnReadCompleted_frame (env : Env) (s : AtomURLRequest) (n : Int) :
    ∃ (bufs : List IOBufferWithSize) (tail : List PostedTask) (j : Nat),
      (OnReadCompleted env s n).posts = s.posts ++ bufs.map dataPost ++ tail ∧
      (tail = [] ∨ tail = [toUI Task.InformDelegateResponseCompleted]) ∧
      (OnReadCompleted env s n).request_.calls
        = s.request_.calls ++ List.replicate j (RequestCall.Read s.buffer_ kBufferSize) ∧
      (OnReadCompleted env s n).buffer_ = s.buffer_ ∧
      (OnReadCompleted env s n).response_headers_ = s.response_headers_ := by
  obtain ⟨bufs, j, h1, h2, h3, h4⟩ :=
    readLoop_frame env (s.request_.sync_reads.length + 1) s n (Nat.lt_succ_self _)
  unfold OnReadCompleted
  generalize readLoop env (s.request_.sync_reads.length + 1) s n = r at h1 h2 h3 h4
  obtain ⟨e, s1⟩ := r
  simp only at h1 h2 h3 h4
  cases e with
  | returned => exact ⟨bufs, [], j, by simpa using h1, Or.inl rfl, h2, h3, h4⟩
  | fell_through =>
    simp only
    by_cases hp : s1.request_.status.is_io_pending = true
    · simp only [hp, Bool.not_true, Bool.false_eq_true, if_false]
      exact ⟨bufs, [], j, by simpa using h1, Or.inl rfl, h2, h3, h4⟩
    · simp only [hp, Bool.not_false, if_true]
      exact ⟨bufs, [toUI Task.InformDelegateResponseCompleted], j,
        by simp [PostTask, h1, toUI], Or.inr rfl, h2, h3, h4⟩

theorem ReadResponse_frame (env : Env) (s : AtomURLRequest) :
    ∃ (bufs : List IOBufferWithSize) (tail : List PostedTask) (j : Nat),
      (ReadResponse env s).posts = s.posts ++ bufs.map dataPost ++ tail ∧
      (tail = [] ∨ tail = [toUI Task.InformDelegateResponseCompleted]) ∧
      (ReadResponse env s).request_.calls
        = s.request_.calls ++ List.replicate j (RequestCall.Read s.buffer_ kBufferSize) ∧
      (s.request_.status.is_success = true → 0 < j) ∧
      (ReadResponse env s).buffer_ = s.buffer_ ∧
      (ReadResponse env s).response_headers_ = s.response_headers_ := by
  unfold ReadResponse
  by_cases hs : s.request_.status.is_success = true
  · simp only [hs, if_true]
    have key : ∀ m : Int, ∃ (bufs : List IOBufferWithSize) (tail : List PostedTask) (j : Nat),
        (OnReadCompleted env (readIntoBuffer s).2.2 m).posts
          = s.posts ++ bufs.map dataPost ++ tail ∧
        (tail = [] ∨ tail = [toUI Task.InformDelegateResponseCompleted]) ∧
        (OnReadCompleted env (readIntoBuffer s).2.2 m).request_.calls
          = s.request_.calls ++ List.replicate j (RequestCall.Read s.buffer_ kBufferSize) ∧
        (True → 0 < j) ∧
        (OnReadCompleted env (readIntoBuffer s).2.2 m).buffer_ = s.buffer_ ∧
        (OnReadCompleted env (readIntoBuffer s).2.2 m).response_headers_
          = s.response_headers_ := by
      intro m
      obtain ⟨bufs, tail, j, h1, h2, h3, h4, h5⟩ :=
        OnReadCompleted_frame env (readIntoBuffer s).2.2 m
      rw [readIntoBuffer_posts] at h1
      rw [readIntoBuffer_calls, readIntoBuffer_buffer] at h3
      rw [readIntoBuffer_buffer] at h4
      rw [readIntoBuffer_snapshot] at h5
      refine ⟨bufs, tail, j + 1, h1, h2, ?_, fun _ => Nat.succ_pos j, h4, h5⟩
      rw [h3, List.append_assoc]
      simp [List.replicate_succ]
    by_cases hr : (readIntoBuffer s).1 = true
    · simp only [hr, Bool.not_true, Bool.false_eq_true, if_false]
      exact key _
    · simp only [hr, Bool.not_false, if_true]
      exact key _
  · simp only [hs, Bool.false_eq_true, if_false]
    obtain ⟨bufs, tail, j, h1, h2, h3, h4, h5⟩ := OnReadCompleted_frame env s 0
    exact ⟨bufs, tail, j, h1, h2, h3, fun h => False.elim h, h4, h5⟩

/-! ## The start of the response -/

theorem uiNotifications_append (l1 l2 : List PostedTask) :
    uiNotifications (l1 ++ l2) = uiNotifications l1 ++ uiNotifications l2 := by
  simp [uiNotifications]

theorem uiNotifications_dataPosts (bufs : List IOBufferWithSize) :
    uiNotifications (bufs.map dataPost) = bufs.map Task.InformDelegateResponseData := by
  induction bufs with
  | nil => rfl
  | cons b rest ih =>
    simp only [uiNotifications] at ih
    simp [uiNotifications, dataPost, toUI, ih]

theorem countP_dataPosts (bufs : List IOBufferWithSize) (p : Task → Bool)
    (hp : ∀ b, p (Task.InformDelegateResponseData b) = false) :
    (uiNotifications (bufs.map dataPost)).countP p = 0 := by
  rw [uiNotifications_dataPosts, List.countP_eq_zero]
  intro t ht
  obtain ⟨b, _, rfl⟩ := List.mem_map.mp ht
  simp [hp b]

/-- C12.  Whatever the status of the transport and the hand-offs:
`OnResponseStarted` leaves in the snapshot the response headers of the
transport when the status is success and the old snapshot otherwise; it then
posts "response started" and runs `ReadResponse`.  Its posts are "response
started" first, then data notifications, then at most "completed", so that
exactly one "response started" is posted; a read is issued when the status is
success; and for a status that is neither success nor I/O-pending the posts
are exactly "response started" and "completed". -/
theorem OnResponseStarted_spec (env : Env) (s : AtomURLRequest) :
    (OnResponseStarted env s).response_headers_ =
      (if s.request_.status.is_success then s.request_.response_headers
       else s.response_headers_) ∧
    OnResponseStarted env s =
      ReadResponse env
        { s with
          response_headers_ :=
            (if s.request_.status.is_success then s.request_.response_headers
             else s.response_headers_),
          posts := s.posts ++ [toUI Task.InformDelegateResponseStarted] } ∧
    (∃ (bufs : List IOBufferWithSize) (tail : List PostedTask) (j : Nat),
      newPosts s (OnResponseStarted env s) =
        toUI Task.InformDelegateResponseStarted :: bufs.map dataPost ++ tail ∧
      (tail = [] ∨ tail = [toUI Task.InformDelegateResponseCompleted]) ∧
      (OnResponseStarted env s).request_.calls =
        s.request_.calls ++ List.replicate j (RequestCall.Read s.buffer_ kBufferSize) ∧
      (s.request_.status.is_success = true → 0 < j)) ∧
    (uiNotifications (newPosts s (OnResponseStarted env s))).countP Task.isResponseStarted
      = 1 ∧
    (s.request_.status.is_success = false → s.request_.status.is_io_pending = false →
      newPosts s (OnResponseStarted env s) =
        [toUI Task.InformDelegateResponseStarted,
         toUI Task.InformDelegateResponseCompleted]) := by
  have hdef : OnResponseStarted env s =
      ReadResponse env
        { s with
          response_headers_ :=
            (if s.request_.status.is_success then s.request_.response_headers
             else s.response_headers_),
          posts := s.posts ++ [toUI Task.InformDelegateResponseStarted] } := by
    unfold OnResponseStarted
    cases s.request_.status.is_success <;> rfl
  obtain ⟨bufs, tail, j, h1, h2, h3, h4, _, h6⟩ := ReadResponse_frame env
    { s with
      response_headers_ :=
        (if s.request_.status.is_success then s.request_.response_headers
         else s.response_headers_),
      posts := s.posts ++ [toUI Task.InformDelegateResponseStarted] }
  rw [← hdef] at h1 h3 h6
  have hnew : newPosts s (OnResponseStarted env s) =
      toUI Task.InformDelegateResponseStarted :: bufs.map dataPost ++ tail := by
    apply newPosts_of_append
    rw [h1]; simp
  refine ⟨h6, hdef, ⟨bufs, tail, j, hnew, h2, h3, h4⟩, ?_, ?_⟩
  · rw [hnew]
    have hsplit : toUI Task.InformDelegateResponseStarted :: bufs.map dataPost ++ tail
        = [toUI Task.InformDelegateResponseStarted] ++ (bufs.map dataPost ++ tail) := by simp
    rw [hsplit, uiNotifications_append, uiNotifications_append, List.countP_append,
      List.countP_append, countP_dataPosts bufs Task.isResponseStarted (fun _ => rfl)]
    rcases h2 with rfl | rfl <;> rfl
  · intro hs hp
    have key : OnResponseStarted env s =
        { s with
          posts := s.posts ++ [toUI Task.InformDelegateResponseStarted,
                               toUI Task.InformDelegateResponseCompleted] } := by
      simp [OnResponseStarted, ReadResponse, OnReadCompleted, readLoop, PostTask, hs, hp, toUI]
    rw [key]
    simp [newPosts]

/-! ## The turns of the read loop -/

theorem goesOn_iff (h : LoopHead) : goesOn h = true ↔ (h.1.is_success = true ∧ 0 < h.2) := by
  simp [goesOn]

theorem goesOn_false_iff (h : LoopHead) :
    goesOn h = false ↔ (h.1.is_success = false ∨ h.2 ≤ 0) := by
  cases hs : h.1.is_success <;> simp [goesOn, hs]

theorem loopHeads_step (s s2 : AtomURLRequest) (n : Int) (o : ReadOutcome)
    (rest : List ReadOutcome) (h1 : s.request_.sync_reads = o :: rest)
    (h2 : s2.request_.status = o.status) (h3 : s2.request_.sync_reads = rest) :
    loopHeads s n = (s.request_.status, n) :: loopHeads s2 o.bytes_read := by
  simp [loopHeads, h1, h2, h3, ReadOutcome.head]

/-- With every hand-off succeeding, the loop makes one turn for each head up
to the first that stops it: each turn posts a copy of the size of its byte
count and is followed by one read; the loop is left with the status of the
head that stopped it, or with the status of the read that returned false
when no head did. -/
theorem readLoop_turns (env : Env) (hok : env.allPostsSucceed) (fuel : Nat)
    (s : AtomURLRequest) (n : Int) (hf : s.request_.sync_reads.length < fuel) :
    (readLoop env fuel s n).1 = LoopExit.fell_through ∧
    ∃ bufs : List IOBufferWithSize,
      (readLoop env fuel s n).2.posts = s.posts ++ bufs.map dataPost ∧
      bufs.map (fun b => b.size_) = (loopTurns s n).map Prod.snd ∧
      (readLoop env fuel s n).2.request_.calls = s.request_.calls ++
        List.replicate (loopTurns s n).length (RequestCall.Read s.buffer_ kBufferSize) ∧
      (readLoop env fuel s n).2.request_.sync_reads
        = s.request_.sync_reads.drop (loopTurns s n).length ∧
      (∀ h rest, (loopHeads s n).dropWhile goesOn = h :: rest →
        (readLoop env fuel s n).2.request_.status = h.1) ∧
      ((loopHeads s n).dropWhile goesOn = [] →
        (readLoop env fuel s n).2.request_.status = s.request_.failed_read.status ∧
        (loopTurns s n).length = s.request_.sync_reads.length + 1) := by
  refine readLoop_cases env
    (fun s n res => res.1 = LoopExit.fell_through ∧
      ∃ bufs : List IOBufferWithSize,
        res.2.posts = s.posts ++ bufs.map dataPost ∧
        bufs.map (fun b => b.size_) = (loopTurns s n).map Prod.snd ∧
        res.2.request_.calls = s.request_.calls ++
          List.replicate (loopTurns s n).length (RequestCall.Read s.buffer_ kBufferSize) ∧
        res.2.request_.sync_reads = s.request_.sync_reads.drop (loopTurns s n).length ∧
        (∀ h rest, (loopHeads s n).dropWhile goesOn = h :: rest →
          res.2.request_.status = h.1) ∧
        ((loopHeads s n).dropWhile goesOn = [] →
          res.2.request_.status = s.request_.failed_read.status ∧
          (loopTurns s n).length = s.request_.sync_reads.length + 1))
    ?_ ?_ ?_ ?_ fuel s n hf
  · intro s n hg
    have ht : loopTurns s n = [] := by simp [loopTurns, loopHeads, List.takeWhile_cons, hg]
    have hd : (loopHeads s n).dropWhile goesOn = loopHeads s n := by
      simp [loopHeads, List.dropWhile_cons, hg]
    refine ⟨rfl, [], by simp, by simp [ht], by simp [ht], by simp [ht], ?_, ?_⟩
    · intro h rest hh
      rw [hd] at hh
      simp only [loopHeads, List.cons.injEq] at hh
      rw [← hh.1]
    · intro hh
      rw [hd] at hh
      simp [loopHeads] at hh
  · intro s n _ hp
    rw [CopyAndPostBuffer_fst, hok] at hp
    exact absurd hp (by simp)
  · intro s n hg _ hr
    obtain ⟨hs, hst, hsr⟩ := readIntoBuffer_false _ hr
    have hs0 : s.request_.sync_reads = [] := hs
    have ht : loopTurns s n = [(s.request_.status, n)] := by
      simp [loopTurns, loopHeads, List.takeWhile_cons, hg, hs0]
    have hd : (loopHeads s n).dropWhile goesOn = [] := by
      simp [loopHeads, List.dropWhile_cons, hg, hs0]
    refine ⟨rfl, [⟨s.heap.length, n⟩], ?_, by simp [ht], ?_, ?_, ?_, ?_⟩
    · rw [readIntoBuffer_posts]; rfl
    · rw [readIntoBuffer_calls, ht]; rfl
    · rw [hsr, hs0]; simp
    · intro h rest hh
      rw [hd] at hh
      exact absurd hh (by simp)
    · intro _
      exact ⟨hst, by rw [ht, hs0]; rfl⟩
  · intro s n res hg _ hr ih
    obtain ⟨o, rest, hs, hn2, hst, hsr, hfr⟩ := readIntoBuffer_true _ hr
    have hs0 : s.request_.sync_reads = o :: rest := hs
    have hheads := loopHeads_step s (readIntoBuffer (CopyAndPostBuffer env s n).2).2.2 n o rest
      hs0 hst hsr
    rw [hn2] at ih
    have ht : loopTurns s n = (s.request_.status, n) ::
        loopTurns (readIntoBuffer (CopyAndPostBuffer env s n).2).2.2 o.bytes_read := by
      simp [loopTurns, hheads, List.takeWhile_cons, hg]
    have hd : (loopHeads s n).dropWhile goesOn =
        (loopHeads (readIntoBuffer (CopyAndPostBuffer env s n).2).2.2 o.bytes_read).dropWhile
          goesOn := by
      simp [hheads, List.dropWhile_cons, hg]
    obtain ⟨he, bufs, h1, h2, h3, h4, h5, h6⟩ := ih
    rw [readIntoBuffer_posts] at h1
    rw [readIntoBuffer_calls, readIntoBuffer_buffer] at h3
    rw [hsr] at h4
    rw [hfr, hsr] at h6
    refine ⟨he, ⟨s.heap.length, n⟩ :: bufs, ?_, ?_, ?_, ?_, ?_, ?_⟩
    · rw [h1, CopyAndPostBuffer_snd]; simp
    · rw [ht]; simp [h2]
    · rw [h3, ht, CopyAndPostBuffer_snd]; simp [List.replicate_succ]
    · rw [h4, ht, hs0]; rfl
    · intro h rest2 hh
      rw [hd] at hh
      exact h5 h rest2 hh
    · intro hh
      rw [hd] at hh
      obtain ⟨h61, h62⟩ := h6 hh
      exact ⟨h61, by rw [ht, hs0]; simp [h62]⟩

/-- When the loop is left by the return that follows a failed hand-off, it has
made `k` whole turns before the one whose hand-off failed: it has posted
`k + 1` copies, the last of them refused, and made `k` reads; the request is
as the last of these reads left it. -/
theorem readLoop_returned (env : Env) (fuel : Nat) (s : AtomURLRequest) (n : Int)
    (hf : s.request_.sync_reads.length < fuel)
    (hret : (readLoop env fuel s n).1 = LoopExit.returned) :
    ∃ (k : Nat) (bufs : List IOBufferWithSize) (h : LoopHead),
      k < (loopTurns s n).length ∧
      (loopHeads s n)[k]? = some h ∧
      (readLoop env fuel s n).2.posts = s.posts ++ bufs.map dataPost ∧
      bufs.length = k + 1 ∧
      env.post_ok (s.posts.length + k) = false ∧
      (∀ i, i < k → env.post_ok (s.posts.length + i) = true) ∧
      (readLoop env fuel s n).2.request_ =
        { s.request_ with
          status := h.1,
          sync_reads := s.request_.sync_reads.drop k,
          calls := s.request_.calls ++
            List.replicate k (RequestCall.Read s.buffer_ kBufferSize) } := by
  revert hret
  refine readLoop_cases env
    (fun s n res => res.1 = LoopExit.returned →
      ∃ (k : Nat) (bufs : List IOBufferWithSize) (h : LoopHead),
        k < (loopTurns s n).length ∧
        (loopHeads s n)[k]? = some h ∧
        res.2.posts = s.posts ++ bufs.map dataPost ∧
        bufs.length = k + 1 ∧
        env.post_ok (s.posts.length + k) = false ∧
        (∀ i, i < k → env.post_ok (s.posts.length + i) = true) ∧
        res.2.request_ =
          { s.request_ with
            status := h.1,
            sync_reads := s.request_.sync_reads.drop k,
            calls := s.request_.calls ++
              List.replicate k (RequestCall.Read s.buffer_ kBufferSize) })
    ?_ ?_ ?_ ?_ fuel s n hf
  · intro s n _ h
    exact absurd h (by simp)
  · intro s n hg hp _
    rw [CopyAndPostBuffer_fst] at hp
    refine ⟨0, [⟨s.heap.length, n⟩], (s.request_.status, n), ?_, by simp [loopHeads], rfl, rfl,
      by simpa using hp, ?_, by simp [CopyAndPostBuffer_snd]⟩
    · simp [loopTurns, loopHeads, List.takeWhile_cons, hg]
    · intro i hi; omega
  · intro s n _ _ _ h
    exact absurd h (by simp)
  · intro s n res hg hp hr ih hres
    obtain ⟨o, rest, hs, hn2, hst, hsr, _⟩ := readIntoBuffer_true _ hr
    have hs0 : s.request_.sync_reads = o :: rest := hs
    have hheads := loopHeads_step s (readIntoBuffer (CopyAndPostBuffer env s n).2).2.2 n o rest
      hs0 hst hsr
    have ht : loopTurns s n = (s.request_.status, n) ::
        loopTurns (readIntoBuffer (CopyAndPostBuffer env s n).2).2.2 o.bytes_read := by
      simp [loopTurns, hheads, List.takeWhile_cons, hg]
    rw [hn2] at ih
    obtain ⟨k, bufs, h, h1, hh, h2, h3, h4, h5, h6⟩ := ih hres
    rw [readIntoBuffer_posts] at h2
    have hlen : (readIntoBuffer (CopyAndPostBuffer env s n).2).2.2.posts.length
        = s.posts.length + 1 := by
      rw [readIntoBuffer_posts, CopyAndPostBuffer_snd]; simp
    rw [hlen] at h4 h5
    rw [CopyAndPostBuffer_fst] at hp
    refine ⟨k + 1, ⟨s.heap.length, n⟩ :: bufs, h, ?_, ?_, ?_, ?_, ?_, ?_, ?_⟩
    · rw [ht]; simpa using h1
    · rw [hheads]; simpa using hh
    · rw [h2, CopyAndPostBuffer_snd]; simp
    · simp [h3]
    · have e : s.posts.length + (k + 1) = s.posts.length + 1 + k := by omega
      rw [e]; exact h4
    · intro i hi
      cases i with
      | zero => exact hp
      | succ i =>
        have e : s.posts.length + (i + 1) = s.posts.length + 1 + i := by omega
        rw [e]; exact h5 i (by omega)
    · rw [h6, readIntoBuffer_cons _ o rest hs]
      simp [hs0, CopyAndPostBuffer_snd, List.replicate_succ]

/-! ## Sizes of the copies -/

theorem length_memcpy (src : Bytes) (n : Int) (h0 : 0 < n) (hn : n ≤ kBufferSize)
    (hsrc : (src.length : Int) = kBufferSize) : ((memcpy src n).length : Int) = n := by
  simp only [memcpy, List.length_take]
  have hN : (n.toNat : Int) = n := Int.toNat_of_nonneg (by omega)
  omega

/-- The heap after one turn of the loop, copy and read: one object more, the
read buffer of the same length, the other old objects untouched, and the new
object holding the copy. -/
theorem heap_after_turn (h : Heap) (a : Nat) (c src : Bytes) (dest_size : Int)
    (ha : a < h.length) :
    (Heap.write (h ++ [c]) a dest_size src).length = h.length + 1 ∧
    (Heap.data (Heap.write (h ++ [c]) a dest_size src) a).length = (Heap.data h a).length ∧
    (∀ b, b < h.length → b ≠ a →
      Heap.data (Heap.write (h ++ [c]) a dest_size src) b = Heap.data h b) ∧
    Heap.data (Heap.write (h ++ [c]) a dest_size src) h.length = c := by
  have ha2 : a < (h ++ [c]).length := by simp; omega
  refine ⟨by simp [Heap.length_write], ?_, ?_, ?_⟩
  · rw [Heap.data_write_same _ _ _ _ ha2, length_overwrite, Heap.data_append_old _ _ _ ha]
  · intro b hb hba
    rw [Heap.data_write_other _ _ _ _ _ (fun e => hba e.symm), Heap.data_append_old _ _ _ hb]
  · rw [Heap.data_write_other _ _ _ _ _ (Nat.ne_of_lt ha), Heap.data_append_new]

/-- Whatever the hand-offs do, when the loop is entered with a byte count of
at most `kBufferSize` and no read reports more than that, every copy it posts
has a size between 1 and `kBufferSize`, is a new object of exactly that many
bytes, and the read buffer keeps its `kBufferSize` bytes. -/
theorem readLoop_bounds (env : Env) (fuel : Nat) (s : AtomURLRequest) (n : Int)
    (hf : s.request_.sync_reads.length < fuel)
    (hcap : ((s.heap.data s.buffer_.addr).length : Int) = kBufferSize)
    (hn : n ≤ kBufferSize)
    (hreads : ∀ o ∈ s.request_.sync_reads, o.bytes_read ≤ kBufferSize) :
    ∃ bufs : List IOBufferWithSize,
      (readLoop env fuel s n).2.posts = s.posts ++ bufs.map dataPost ∧
      s.heap.length ≤ (readLoop env fuel s n).2.heap.length ∧
      (((readLoop env fuel s n).2.heap.data s.buffer_.addr).length : Int) = kBufferSize ∧
      (∀ a, a < s.heap.length → a ≠ s.buffer_.addr →
        (readLoop env fuel s n).2.heap.data a = s.heap.data a) ∧
      ∀ b ∈ bufs, 1 ≤ b.size_ ∧ b.size_ ≤ kBufferSize ∧ s.heap.length ≤ b.addr ∧
        (((readLoop env fuel s n).2.heap.data b.addr).length : Int) = b.size_ := by
  revert hcap hn hreads
  refine readLoop_cases env
    (fun s n res =>
      ((s.heap.data s.buffer_.addr).length : Int) = kBufferSize → n ≤ kBufferSize →
      (∀ o ∈ s.request_.sync_reads, o.bytes_read ≤ kBufferSize) →
      ∃ bufs : List IOBufferWithSize,
        res.2.posts = s.posts ++ bufs.map dataPost ∧
        s.heap.length ≤ res.2.heap.length ∧
        ((res.2.heap.data s.buffer_.addr).length : Int) = kBufferSize ∧
        (∀ a, a < s.heap.length → a ≠ s.buffer_.addr → res.2.heap.data a = s.heap.data a) ∧
        ∀ b ∈ bufs, 1 ≤ b.size_ ∧ b.size_ ≤ kBufferSize ∧ s.heap.length ≤ b.addr ∧
          ((res.2.heap.data b.addr).length : Int) = b.size_)
    ?_ ?_ ?_ ?_ fuel s n hf
  · intro s n _ hcap _ _
    exact ⟨[], by simp, le_refl _, hcap, fun _ _ _ => rfl, by simp⟩
  · intro s n hg _ hcap hn _
    have hbuf := live_of_capacity _ _ hcap
    have hpos : 0 < n := ((goesOn_iff _).mp hg).2
    refine ⟨[⟨s.heap.length, n⟩], rfl, ?_, ?_, ?_, ?_⟩
    · simp [CopyAndPostBuffer_snd]
    · simp only [CopyAndPostBuffer_snd]
      rw [Heap.data_append_old _ _ _ hbuf]; exact hcap
    · intro a ha _
      simp only [CopyAndPostBuffer_snd]
      exact Heap.data_append_old _ _ _ ha
    · intro b hb
      simp only [List.mem_singleton] at hb
      subst hb
      refine ⟨(by show (1 : Int) ≤ n; omega), hn, le_refl _, ?_⟩
      simp only [CopyAndPostBuffer_snd]
      rw [Heap.data_append_new]
      exact length_memcpy _ _ hpos hn hcap
  · intro s n hg _ _ hcap hn _
    have hbuf := live_of_capacity _ _ hcap
    have hpos : 0 < n := ((goesOn_iff _).mp hg).2
    obtain ⟨src, hheap⟩ := readIntoBuffer_heap (CopyAndPostBuffer env s n).2
    obtain ⟨t1, t2, t3, t4⟩ := heap_after_turn s.heap s.buffer_.addr
      (memcpy (s.heap.data s.buffer_.addr) n) src kBufferSize hbuf
    have hheap2 : (readIntoBuffer (CopyAndPostBuffer env s n).2).2.2.heap =
        Heap.write (s.heap ++ [memcpy (s.heap.data s.buffer_.addr) n]) s.buffer_.addr
          kBufferSize src := hheap
    refine ⟨[⟨s.heap.length, n⟩], ?_, ?_, ?_, ?_, ?_⟩
    · rw [readIntoBuffer_posts]; rfl
    · simp only [hheap2, t1]; omega
    · simp only [hheap2, t2]; exact hcap
    · intro a ha hab
      simp only [hheap2]; exact t3 a ha hab
    · intro b hb
      simp only [List.mem_singleton] at hb
      subst hb
      refine ⟨(by show (1 : Int) ≤ n; omega), hn, le_refl _, ?_⟩
      simp only [hheap2, t4]
      exact length_memcpy _ _ hpos hn hcap
  · intro s n res hg _ hr ih hcap hn hreads
    have hbuf := live_of_capacity _ _ hcap
    have hpos : 0 < n := ((goesOn_iff _).mp hg).2
    obtain ⟨o, rest, hs, hn2, _, hsr, _⟩ := readIntoBuffer_true _ hr
    have hs0 : s.request_.sync_reads = o :: rest := hs
    obtain ⟨src, hheap⟩ := readIntoBuffer_heap (CopyAndPostBuffer env s n).2
    obtain ⟨t1, t2, t3, t4⟩ := heap_after_turn s.heap s.buffer_.addr
      (memcpy (s.heap.data s.buffer_.addr) n) src kBufferSize hbuf
    have hheap2 : (readIntoBuffer (CopyAndPostBuffer env s n).2).2.2.heap =
        Heap.write (s.heap ++ [memcpy (s.heap.data s.buffer_.addr) n]) s.buffer_.addr
          kBufferSize src := hheap
    have hb2 : (readIntoBuffer (CopyAndPostBuffer env s n).2).2.2.buffer_ = s.buffer_ := by
      rw [readIntoBuffer_buffer]; rfl
    rw [hb2, hheap2, hsr, hn2, readIntoBuffer_posts] at ih
    obtain ⟨bufs, i1, i2, i3, i4, i5⟩ := ih
      (by rw [t2]; exact hcap)
      (hreads o (by rw [hs0]; exact List.mem_cons_self _ _))
      (fun o2 h2 => hreads o2 (by rw [hs0]; exact List.mem_cons_of_mem _ h2))
    rw [t1] at i2 i4 i5
    refine ⟨⟨s.heap.length, n⟩ :: bufs, ?_, by omega, i3, ?_, ?_⟩
    · rw [i1, CopyAndPostBuffer_snd]; simp
    · intro a ha hab
      rw [i4 a (by omega) hab]; exact t3 a ha hab
    · intro b hb
      rcases List.mem_cons.mp hb with rfl | hb
      · refine ⟨(by show (1 : Int) ≤ n; omega), hn, le_refl _, ?_⟩
        simp only
        rw [i4 s.heap.length (by omega) (Nat.ne_of_gt hbuf), t4]
        exact length_memcpy _ _ hpos hn hcap
      · obtain ⟨j1, j2, j3, j4⟩ := i5 b hb
        exact ⟨j1, j2, by omega, j4⟩

/-! ## Calls of `OnReadCompleted` as a whole -/

theorem head_dropWhile_stops (l : List LoopHead) :
    ∀ h rest, l.dropWhile goesOn = h :: rest → goesOn h = false := by
  induction l with
  | nil => intro h rest hh; simp at hh
  | cons x xs ih =>
    intro h rest hh
    by_cases hx : goesOn x = true
    · rw [List.dropWhile_cons, if_pos hx] at hh
      exact ih h rest hh
    · rw [List.dropWhile_cons, if_neg hx] at hh
      simp only [List.cons.injEq] at hh
      rw [← hh.1]; simpa using hx

/-- A loop that is left by falling through has had every one of its hand-offs
accepted. -/
theorem readLoop_accepted (env : Env) (fuel : Nat) (s : AtomURLRequest) (n : Int)
    (hf : s.request_.sync_reads.length < fuel)
    (hexit : (readLoop env fuel s n).1 = LoopExit.fell_through) :
    ∀ k, k < (loopTurns s n).length → env.post_ok (s.posts.length + k) = true := by
  revert hexit
  refine readLoop_cases env
    (fun s n res => res.1 = LoopExit.fell_through →
      ∀ k, k < (loopTurns s n).length → env.post_ok (s.posts.length + k) = true)
    ?_ ?_ ?_ ?_ fuel s n hf
  · intro s n hg _ k hk
    simp [loopTurns, loopHeads, List.takeWhile_cons, hg] at hk
  · intro s n _ _ h
    exact absurd h (by simp)
  · intro s n hg hp hr _ k hk
    obtain ⟨hs, _, _⟩ := readIntoBuffer_false _ hr
    have hs0 : s.request_.sync_reads = [] := hs
    simp [loopTurns, loopHeads, List.takeWhile_cons, hg, hs0] at hk
    subst hk
    rw [CopyAndPostBuffer_fst] at hp
    simpa using hp
  · intro s n res hg hp hr ih hres k hk
    obtain ⟨o, rest, hs, hn2, hst, hsr, _⟩ := readIntoBuffer_true _ hr
    have hs0 : s.request_.sync_reads = o :: rest := hs
    have hheads := loopHeads_step s (readIntoBuffer (CopyAndPostBuffer env s n).2).2.2 n o rest
      hs0 hst hsr
    have ht : loopTurns s n = (s.request_.status, n) ::
        loopTurns (readIntoBuffer (CopyAndPostBuffer env s n).2).2.2 o.bytes_read := by
      simp [loopTurns, hheads, List.takeWhile_cons, hg]
    rw [hn2] at ih
    have hlen : (readIntoBuffer (CopyAndPostBuffer env s n).2).2.2.posts.length
        = s.posts.length + 1 := by
      rw [readIntoBuffer_posts, CopyAndPostBuffer_snd]; simp
    rw [hlen] at ih
    rw [CopyAndPostBuffer_fst] at hp
    cases k with
    | zero => simpa using hp
    | succ k =>
      have e : s.posts.length + (k + 1) = s.posts.length + 1 + k := by omega
      rw [e]
      exact ih hres k (by rw [ht] at hk; simpa using hk)

/-- C13.  When the hand-off of one of the copies the loop would make fails,
the call of `OnReadCompleted` ends with the first copy whose hand-off fails,
copy number `k` counted from 0: its posts are the `k + 1` data notifications
up to that one and nothing else, so no later data notification and no
"completed"; it has made the `k` reads that came before and none after; and
the request is as the last of these reads left it, with the status that read
reported (the status at entry when `k = 0`) and the rest of the answers of the
transport unused. -/
theorem OnReadCompleted_stops_when_handoff_fails (env : Env) (s : AtomURLRequest) (n : Int)
    (hfail : ∃ k, k < (loopTurns s n).length ∧ env.post_ok (s.posts.length + k) = false) :
    ∃ (k : Nat) (bufs : List IOBufferWithSize) (h : LoopHead),
      k < (loopTurns s n).length ∧
      (loopHeads s n)[k]? = some h ∧
      env.post_ok (s.posts.length + k) = false ∧
      (∀ i, i < k → env.post_ok (s.posts.length + i) = true) ∧
      newPosts s (OnReadCompleted env s n) = bufs.map dataPost ∧
      bufs.length = k + 1 ∧
      (OnReadCompleted env s n).request_ =
        { s.request_ with
          status := h.1,
          sync_reads := s.request_.sync_reads.drop k,
          calls := s.request_.calls ++
            List.replicate k (RequestCall.Read s.buffer_ kBufferSize) } := by
  have hret : (readLoop env (s.request_.sync_reads.length + 1) s n).1 = LoopExit.returned := by
    cases hx : (readLoop env (s.request_.sync_reads.length + 1) s n).1 with
    | returned => rfl
    | fell_through =>
      obtain ⟨k, hk1, hk2⟩ := hfail
      have := readLoop_accepted env _ s n (Nat.lt_succ_self _) hx k hk1
      rw [hk2] at this
      exact absurd this (by simp)
  obtain ⟨k, bufs, h, h1, h2, h3, h4, h5, h6, h7⟩ :=
    readLoop_returned env _ s n (Nat.lt_succ_self _) hret
  have hres : OnReadCompleted env s n
      = (readLoop env (s.request_.sync_reads.length + 1) s n).2 := by
    unfold OnReadCompleted
    generalize readLoop env (s.request_.sync_reads.length + 1) s n = r at hret
    obtain ⟨e, s1⟩ := r
    simp only at hret
    subst hret
    rfl
  rw [hres]
  exact ⟨k, bufs, h, h1, h2, h5, h6, newPosts_of_append _ _ _ h3, h4, h7⟩

/-- The sessions a call of `OnReadCompleted` ends with when every hand-off
succeeds, in terms of the turns of the loop. -/
theorem OnReadCompleted_turns (env : Env) (hok : env.allPostsSucceed) (s : AtomURLRequest)
    (n : Int) :
    ∃ bufs : List IOBufferWithSize,
      newPosts s (OnReadCompleted env s n) = bufs.map dataPost ++
        (if (OnReadCompleted env s n).request_.status.is_io_pending then []
         else [toUI Task.InformDelegateResponseCompleted]) ∧
      bufs.map (fun b => b.size_) = (loopTurns s n).map Prod.snd ∧
      (OnReadCompleted env s n).request_.calls = s.request_.calls ++
        List.replicate (loopTurns s n).length (RequestCall.Read s.buffer_ kBufferSize) ∧
      (OnReadCompleted env s n).request_.sync_reads
        = s.request_.sync_reads.drop (loopTurns s n).length ∧
      (∀ h rest, (loopHeads s n).dropWhile goesOn = h :: rest →
        (OnReadCompleted env s n).request_.status = h.1) ∧
      ((loopHeads s n).dropWhile goesOn = [] →
        (OnReadCompleted env s n).request_.status = s.request_.failed_read.status ∧
        (loopTurns s n).length = s.request_.sync_reads.length + 1) := by
  obtain ⟨he, bufs, h1, h2, h3, h4, h5, h6⟩ :=
    readLoop_turns env hok (s.request_.sync_reads.length + 1) s n (Nat.lt_succ_self _)
  have hreq : (OnReadCompleted env s n).request_
      = (readLoop env (s.request_.sync_reads.length + 1) s n).2.request_ ∧
      (OnReadCompleted env s n).posts
      = (readLoop env (s.request_.sync_reads.length + 1) s n).2.posts ++
        (if (readLoop env (s.request_.sync_reads.length + 1) s n).2.request_.status.is_io_pending
         then [] else [toUI Task.InformDelegateResponseCompleted]) := by
    unfold OnReadCompleted
    generalize readLoop env (s.request_.sync_reads.length + 1) s n = r at he
    obtain ⟨e, s1⟩ := r
    simp only at he
    subst he
    simp only
    by_cases hp : s1.request_.status.is_io_pending = true
    · simp [hp]
    · simp [hp, PostTask, toUI]
  refine ⟨bufs, ?_, h2, ?_, ?_, ?_, ?_⟩
  · apply newPosts_of_append
    rw [hreq.2, hreq.1, h1, List.append_assoc]
  · rw [hreq.1]; exact h3
  · rw [hreq.1]; exact h4
  · rw [hreq.1]; exact h5
  · rw [hreq.1]; exact h6

/-- C14.  In a call of `OnReadCompleted` in which every hand-off succeeds, the
loop makes one turn, a copy posted and then a read, for each head (status and
byte count) up to the first that stops it, and each of these heads has a
success status and a positive byte count.  It is left at the first head whose
status is not success or whose byte count is 0 or less, with the status of
that head, or, when there is no such head, after the read that returned false,
with the status of that read.  The call then posts exactly one "completed"
when that status is not I/O-pending and none when it is.  Whatever the
hand-offs do, when the first read of `ReadResponse` returns false and leaves
the request I/O-pending, `ReadResponse` posts nothing. -/
theorem OnReadCompleted_exit_rule (env : Env) (s : AtomURLRequest) (n : Int) :
    (env.allPostsSucceed →
      ∃ bufs : List IOBufferWithSize,
        newPosts s (OnReadCompleted env s n) = bufs.map dataPost ++
          (if (OnReadCompleted env s n).request_.status.is_io_pending then []
           else [toUI Task.InformDelegateResponseCompleted]) ∧
        bufs.map (fun b => b.size_) = (loopTurns s n).map Prod.snd ∧
        (∀ h ∈ loopTurns s n, h.1.is_success = true ∧ 0 < h.2) ∧
        (OnReadCompleted env s n).request_.calls = s.request_.calls ++
          List.replicate (loopTurns s n).length (RequestCall.Read s.buffer_ kBufferSize) ∧
        (OnReadCompleted env s n).request_.sync_reads
          = s.request_.sync_reads.drop (loopTurns s n).length ∧
        (∀ h rest, (loopHeads s n).dropWhile goesOn = h :: rest →
          (h.1.is_success = false ∨ h.2 ≤ 0) ∧
          (OnReadCompleted env s n).request_.status = h.1) ∧
        ((loopHeads s n).dropWhile goesOn = [] →
          (loopTurns s n).length = s.request_.sync_reads.length + 1 ∧
          (OnReadCompleted env s n).request_.status = s.request_.failed_read.status)) ∧
    (s.request_.status.is_success = true → s.request_.sync_reads = [] →
      s.request_.failed_read.status.is_io_pending = true →
      (ReadResponse env s).posts = s.posts) := by
  constructor
  · intro hok
    obtain ⟨bufs, h1, h2, h3, h4, h5, h6⟩ := OnReadCompleted_turns env hok s n
    refine ⟨bufs, h1, h2, ?_, h3, h4, ?_, ?_⟩
    · intro h hh
      exact (goesOn_iff h).mp (List.mem_takeWhile_imp hh)
    · intro h rest hh
      exact ⟨(goesOn_false_iff h).mp (head_dropWhile_stops _ h rest hh), h5 h rest hh⟩
    · intro hh
      exact ⟨(h6 hh).2, (h6 hh).1⟩
  · intro hs hr hp
    simp [ReadResponse, OnReadCompleted, readLoop, readIntoBuffer, URLRequest.Read, hs, hr, hp]

/-! ## Reads and copies within the buffer -/

theorem dataPost_injective : Function.Injective dataPost := by
  intro a b h
  simpa [dataPost, toUI] using h

theorem readIntoBuffer_capacity (s : AtomURLRequest)
    (hcap : ((s.heap.data s.buffer_.addr).length : Int) = kBufferSize) :
    (((readIntoBuffer s).2.2.heap.data s.buffer_.addr).length : Int) = kBufferSize ∧
    (readIntoBuffer s).2.2.heap.length = s.heap.length := by
  have hbuf := live_of_capacity _ _ hcap
  obtain ⟨src, h⟩ := readIntoBuffer_heap s
  rw [h, Heap.data_write_same _ _ _ _ hbuf, length_overwrite, Heap.length_write]
  exact ⟨hcap, rfl⟩

/-- Whatever the hand-offs do, a call of `OnReadCompleted` entered with a byte
count of at most `kBufferSize`, on answers that never report more, posts
copies of 1 to `kBufferSize` bytes only, each a new object of exactly its
size, and reads `kBufferSize` bytes at a time into the read buffer, which
keeps its `kBufferSize` bytes. -/
theorem OnReadCompleted_bounds (env : Env) (s : AtomURLRequest) (n : Int)
    (hcap : ((s.heap.data s.buffer_.addr).length : Int) = kBufferSize)
    (hn : n ≤ kBufferSize)
    (hreads : ∀ o ∈ s.request_.sync_reads, o.bytes_read ≤ kBufferSize) :
    ∃ (bufs : List IOBufferWithSize) (tail : List PostedTask) (j : Nat),
      (OnReadCompleted env s n).posts = s.posts ++ bufs.map dataPost ++ tail ∧
      (tail = [] ∨ tail = [toUI Task.InformDelegateResponseCompleted]) ∧
      (OnReadCompleted env s n).request_.calls
        = s.request_.calls ++ List.replicate j (RequestCall.Read s.buffer_ kBufferSize) ∧
      (OnReadCompleted env s n).buffer_ = s.buffer_ ∧
      (((OnReadCompleted env s n).heap.data s.buffer_.addr).length : Int) = kBufferSize ∧
      (∀ b ∈ bufs, 1 ≤ b.size_ ∧ b.size_ ≤ kBufferSize ∧ s.heap.length ≤ b.addr ∧
        (((OnReadCompleted env s n).heap.data b.addr).length : Int) = b.size_) := by
  obtain ⟨bufsA, j, a1, a2, a3, _⟩ :=
    readLoop_frame env (s.request_.sync_reads.length + 1) s n (Nat.lt_succ_self _)
  obtain ⟨bufs, b1, _, b3, _, b5⟩ :=
    readLoop_bounds env (s.request_.sync_reads.length + 1) s n (Nat.lt_succ_self _)
      hcap hn hreads
  unfold OnReadCompleted
  generalize readLoop env (s.request_.sync_reads.length + 1) s n = r at a1 a2 a3 b1 b3 b5
  obtain ⟨e, s1⟩ := r
  simp only at a1 a2 a3 b1 b3 b5
  cases e with
  | returned => exact ⟨bufs, [], j, by simpa using b1, Or.inl rfl, a2, a3, b3, b5⟩
  | fell_through =>
    simp only
    by_cases hp : s1.request_.status.is_io_pending = true
    · simp only [hp, Bool.not_true, Bool.false_eq_true, if_false]
      exact ⟨bufs, [], j, by simpa using b1, Or.inl rfl, a2, a3, b3, b5⟩
    · simp only [hp, Bool.not_false, if_true]
      exact ⟨bufs, [toUI Task.InformDelegateResponseCompleted], j,
        by simp [PostTask, b1, toUI], Or.inr rfl, a2, a3, b3, b5⟩

theorem ReadResponse_bounds (env : Env) (s : AtomURLRequest)
    (hcap : ((s.heap.data s.buffer_.addr).length : Int) = kBufferSize)
    (hreads : ∀ o ∈ s.request_.sync_reads, o.bytes_read ≤ kBufferSize) :
    ∃ (bufs : List IOBufferWithSize) (tail : List PostedTask) (j : Nat),
      (ReadResponse env s).posts = s.posts ++ bufs.map dataPost ++ tail ∧
      (tail = [] ∨ tail = [toUI Task.InformDelegateResponseCompleted]) ∧
      (ReadResponse env s).request_.calls
        = s.request_.calls ++ List.replicate j (RequestCall.Read s.buffer_ kBufferSize) ∧
      (ReadResponse env s).buffer_ = s.buffer_ ∧
      (((ReadResponse env s).heap.data s.buffer_.addr).length : Int) = kBufferSize ∧
      (∀ b ∈ bufs, 1 ≤ b.size_ ∧ b.size_ ≤ kBufferSize ∧ s.heap.length ≤ b.addr ∧
        (((ReadResponse env s).heap.data b.addr).length : Int) = b.size_) := by
  unfold ReadResponse
  by_cases hs : s.request_.status.is_success = true
  · simp only [hs, if_true]
    obtain ⟨c1, c2⟩ := readIntoBuffer_capacity s hcap
    have key : ∀ m : Int, m ≤ kBufferSize →
        (∀ o ∈ (readIntoBuffer s).2.2.request_.sync_reads, o.bytes_read ≤ kBufferSize) →
        ∃ (bufs : List IOBufferWithSize) (tail : List PostedTask) (j : Nat),
          (OnReadCompleted env (readIntoBuffer s).2.2 m).posts
            = s.posts ++ bufs.map dataPost ++ tail ∧
          (tail = [] ∨ tail = [toUI Task.InformDelegateResponseCompleted]) ∧
          (OnReadCompleted env (readIntoBuffer s).2.2 m).request_.calls
            = s.request_.calls ++ List.replicate j (RequestCall.Read s.buffer_ kBufferSize) ∧
          (OnReadCompleted env (readIntoBuffer s).2.2 m).buffer_ = s.buffer_ ∧
          (((OnReadCompleted env (readIntoBuffer s).2.2 m).heap.data s.buffer_.addr).length : Int)
            = kBufferSize ∧
          (∀ b ∈ bufs, 1 ≤ b.size_ ∧ b.size_ ≤ kBufferSize ∧ s.heap.length ≤ b.addr ∧
            (((OnReadCompleted env (readIntoBuffer s).2.2 m).heap.data b.addr).length : Int)
              = b.size_) := by
      intro m hm hr2
      have hcap2 : (((readIntoBuffer s).2.2.heap.data (readIntoBuffer s).2.2.buffer_.addr).length
          : Int) = kBufferSize := by
        rw [readIntoBuffer_buffer]; exact c1
      obtain ⟨bufs, tail, j, h1, h2, h3, h4, h5, h6⟩ :=
        OnReadCompleted_bounds env (readIntoBuffer s).2.2 m hcap2 hm hr2
      rw [readIntoBuffer_posts] at h1
      rw [readIntoBuffer_calls, readIntoBuffer_buffer] at h3
      rw [readIntoBuffer_buffer] at h4 h5
      rw [c2] at h6
      refine ⟨bufs, tail, j + 1, h1, h2, ?_, h4, h5, h6⟩
      rw [h3, List.append_assoc]
      simp [List.replicate_succ]
    by_cases hr : (readIntoBuffer s).1 = true
    · simp only [hr, Bool.not_true, Bool.false_eq_true, if_false]
      obtain ⟨o, rest, hs0, hn2, _, hsr, _⟩ := readIntoBuffer_true _ hr
      refine key _ ?_ ?_
      · rw [hn2]; exact hreads o (by rw [hs0]; exact List.mem_cons_self _ _)
      · intro o2 h2
        rw [hsr] at h2
        exact hreads o2 (by rw [hs0]; exact List.mem_cons_of_mem _ h2)
    · simp only [hr, Bool.not_false, if_true]
      obtain ⟨_, _, hsr⟩ := readIntoBuffer_false _ (by simpa using hr)
      refine key _ (by decide) ?_
      intro o2 h2
      rw [hsr] at h2
      exact absurd h2 (List.not_mem_nil _)
  · simp only [hs, Bool.false_eq_true, if_false]
    exact OnReadCompleted_bounds env s 0 hcap (by decide) hreads

theorem OnResponseStarted_eq (env : Env) (s : AtomURLRequest) :
    OnResponseStarted env s =
      ReadResponse env
        { s with
          response_headers_ :=
            (if s.request_.status.is_success then s.request_.response_headers
             else s.response_headers_),
          posts := s.posts ++ [toUI Task.InformDelegateResponseStarted] } := by
  unfold OnResponseStarted
  cases s.request_.status.is_success <;> rfl

/-- C15.  On a session whose read buffer holds `kBufferSize` bytes, with a
transport whose reads never report more than `kBufferSize` bytes, and
whatever the hand-offs do: every read issued by `OnReadCompleted` (entered
with a byte count of at most `kBufferSize`) and by `OnResponseStarted` asks
for `kBufferSize` bytes into the read buffer, which keeps its `kBufferSize`
bytes; the posts are data notifications and at most one "completed" (after
"response started" for `OnResponseStarted`); and every data notification
carries a buffer of a size between 1 and `kBufferSize`, a new object other
than the read buffer that holds exactly that many bytes, so no copy is made
with a byte count outside that range and none is empty. -/
theorem reads_and_copies_fit_buffer (env : Env) (s : AtomURLRequest)
    (hcap : ((s.heap.data s.buffer_.addr).length : Int) = kBufferSize)
    (hreads : ∀ o ∈ s.request_.sync_reads, o.bytes_read ≤ kBufferSize) :
    (∀ n : Int, n ≤ kBufferSize →
      ∃ (bufs : List IOBufferWithSize) (tail : List PostedTask) (j : Nat),
        newPosts s (OnReadCompleted env s n) = bufs.map dataPost ++ tail ∧
        (tail = [] ∨ tail = [toUI Task.InformDelegateResponseCompleted]) ∧
        (OnReadCompleted env s n).request_.calls
          = s.request_.calls ++ List.replicate j (RequestCall.Read s.buffer_ kBufferSize) ∧
        (((OnReadCompleted env s n).heap.data (OnReadCompleted env s n).buffer_.addr).length
          : Int) = kBufferSize ∧
        (∀ b ∈ bufs, 1 ≤ b.size_ ∧ b.size_ ≤ kBufferSize ∧ b.addr ≠ s.buffer_.addr ∧
          (((OnReadCompleted env s n).heap.data b.addr).length : Int) = b.size_)) ∧
    (∃ (bufs : List IOBufferWithSize) (tail : List PostedTask) (j : Nat),
      newPosts s (OnResponseStarted env s) =
        toUI Task.InformDelegateResponseStarted :: bufs.map dataPost ++ tail ∧
      (tail = [] ∨ tail = [toUI Task.InformDelegateResponseCompleted]) ∧
      (OnResponseStarted env s).request_.calls
        = s.request_.calls ++ List.replicate j (RequestCall.Read s.buffer_ kBufferSize) ∧
      (((OnResponseStarted env s).heap.data (OnResponseStarted env s).buffer_.addr).length
        : Int) = kBufferSize ∧
      (∀ b ∈ bufs, 1 ≤ b.size_ ∧ b.size_ ≤ kBufferSize ∧ b.addr ≠ s.buffer_.addr ∧
        (((OnResponseStarted env s).heap.data b.addr).length : Int) = b.size_)) := by
  have hbuf := live_of_capacity _ _ hcap
  constructor
  · intro n hn
    obtain ⟨bufs, tail, j, h1, h2, h3, h4, h5, h6⟩ := OnReadCompleted_bounds env s n hcap hn hreads
    refine ⟨bufs, tail, j, ?_, h2, h3, by rw [h4]; exact h5, ?_⟩
    · apply newPosts_of_append; rw [h1, List.append_assoc]
    · intro b hb
      obtain ⟨k1, k2, k3, k4⟩ := h6 b hb
      exact ⟨k1, k2, by omega, k4⟩
  · rw [OnResponseStarted_eq]
    obtain ⟨bufs, tail, j, h1, h2, h3, h4, h5, h6⟩ := ReadResponse_bounds env
      { s with
        response_headers_ :=
          (if s.request_.status.is_success then s.request_.response_headers
           else s.response_headers_),
        posts := s.posts ++ [toUI Task.InformDelegateResponseStarted] } hcap hreads
    refine ⟨bufs, tail, j, ?_, h2, h3, by rw [h4]; exact h5, ?_⟩
    · apply newPosts_of_append; rw [h1]; simp
    · intro b hb
      obtain ⟨k1, k2, k3, k4⟩ := h6 b hb
      exact ⟨k1, k2, (by have : s.heap.length ≤ b.addr := k3; omega), k4⟩

/-! ## The snapshot and the read loop on sample sessions -/

theorem completedRead_buffer :
    (((atReadCompletion dispatchedSession completion12then5).heap.data
      (atReadCompletion dispatchedSession completion12then5).buffer_.addr).length : Int)
      = kBufferSize := by
  show ((Heap.data (Heap.write dispatchedSession.heap dispatchedSession.buffer_.addr kBufferSize
    body12) dispatchedSession.buffer_.addr).length : Int) = kBufferSize
  rw [Heap.data_write_same _ _ _ _ (live_of_capacity _ _ dispatchedSession_buffer),
    length_overwrite]
  exact dispatchedSession_buffer

/-- C12 on a sample: the start of a response that has failed is reported with
"response started" and "completed", and the snapshot stays empty. -/
theorem OnResponseStarted_spec_witness :
    (atResponseStart dispatchedSession startFailed).request_.status.is_success = false ∧
    (atResponseStart dispatchedSession startFailed).request_.status.is_io_pending = false ∧
    newPosts (atResponseStart dispatchedSession startFailed)
        (OnResponseStarted lossyEnv (atResponseStart dispatchedSession startFailed)) =
      [toUI Task.InformDelegateResponseStarted, toUI Task.InformDelegateResponseCompleted] ∧
    (OnResponseStarted lossyEnv (atResponseStart dispatchedSession startFailed)).response_headers_
      = none ∧
    (OnResponseStarted Env.reliable
      (atResponseStart dispatchedSession
        { start12 with response_headers := some headers200 })).response_headers_
      = some headers200 := by
  refine ⟨by decide, by decide,
    (OnResponseStarted_spec lossyEnv (atResponseStart dispatchedSession startFailed)).2.2.2.2
      (by decide) (by decide), ?_, ?_⟩
  · rw [(OnResponseStarted_spec lossyEnv (atResponseStart dispatchedSession startFailed)).1]
    decide
  · rw [(OnResponseStarted_spec Env.reliable (atResponseStart dispatchedSession
      { start12 with response_headers := some headers200 })).1]
    decide

/-- C13 on a sample: a pending read completes with twelve bytes, a read of
five bytes and the end of the stream follow, and the hand-off of the second
copy fails. -/
theorem OnReadCompleted_stops_when_handoff_fails_witness :
    (∃ k, k < (loopTurns (atReadCompletion dispatchedSession completion12then5) 12).length ∧
      lossyEnv.post_ok ((atReadCompletion dispatchedSession completion12then5).posts.length + k)
        = false) ∧
    (∃ (k : Nat) (bufs : List IOBufferWithSize),
      newPosts (atReadCompletion dispatchedSession completion12then5)
        (OnReadCompleted lossyEnv (atReadCompletion dispatchedSession completion12then5) 12)
        = bufs.map dataPost ∧
      bufs.length = k + 1 ∧
      (OnReadCompleted lossyEnv
        (atReadCompletion dispatchedSession completion12then5) 12).request_.calls
        = (atReadCompletion dispatchedSession completion12then5).request_.calls ++
          List.replicate k (RequestCall.Read ⟨0⟩ kBufferSize)) ∧
    newPosts (atReadCompletion dispatchedSession completion12then5)
        (OnReadCompleted lossyEnv (atReadCompletion dispatchedSession completion12then5) 12)
      = [dataPost ⟨1, 12⟩, dataPost ⟨2, 5⟩] ∧
    (OnReadCompleted lossyEnv
      (atReadCompletion dispatchedSession completion12then5) 12).request_.sync_reads
      = [endOfStream] := by
  have hfail : ∃ k,
      k < (loopTurns (atReadCompletion dispatchedSession completion12then5) 12).length ∧
      lossyEnv.post_ok ((atReadCompletion dispatchedSession completion12then5).posts.length + k)
        = false := ⟨1, by decide, by decide⟩
  obtain ⟨k, bufs, h, _, _, _, _, h5, h6, h7⟩ :=
    OnReadCompleted_stops_when_handoff_fails lossyEnv
      (atReadCompletion dispatchedSession completion12then5) 12 hfail
  refine ⟨hfail, ⟨k, bufs, h5, h6, ?_⟩, by decide, by decide⟩
  rw [h7]
  rfl

/-- C14 on a sample: the same completion with every hand-off succeeding. -/
theorem OnReadCompleted_exit_rule_witness :
    Env.reliable.allPostsSucceed ∧
    (∃ bufs : List IOBufferWithSize,
      newPosts (atReadCompletion dispatchedSession completion12then5)
        (OnReadCompleted Env.reliable (atReadCompletion dispatchedSession completion12then5) 12)
        = bufs.map dataPost ++ [toUI Task.InformDelegateResponseCompleted] ∧
      bufs.map (fun b => b.size_) = [12, 5]) ∧
    (atResponseStart dispatchedSession startPending).request_.status.is_success = true ∧
    (atResponseStart dispatchedSession startPending).request_.sync_reads = [] ∧
    (atResponseStart dispatchedSession startPending).request_.failed_read.status.is_io_pending
      = true ∧
    (ReadResponse lossyEnv (atResponseStart dispatchedSession startPending)).posts
      = (atResponseStart dispatchedSession startPending).posts := by
  obtain ⟨bufs, h1, h2, _⟩ :=
    (OnReadCompleted_exit_rule Env.reliable
      (atReadCompletion dispatchedSession completion12then5) 12).1 (fun _ => rfl)
  have hp : (OnReadCompleted Env.reliable
      (atReadCompletion dispatchedSession completion12then5) 12).request_.status.is_io_pending
      = false := by decide
  have ht : (loopTurns (atReadCompletion dispatchedSession completion12then5) 12).map Prod.snd
      = [12, 5] := by decide
  rw [hp] at h1
  rw [ht] at h2
  exact ⟨fun _ => rfl, ⟨bufs, by simpa using h1, h2⟩, by decide, by decide, by decide,
    (OnReadCompleted_exit_rule lossyEnv (atResponseStart dispatchedSession startPending) 0).2
      (by decide) (by decide) (by decide)⟩

/-- C15 on a sample: the same completion, with the second hand-off failing. -/
theorem reads_and_copies_fit_buffer_witness :
    (((atReadCompletion dispatchedSession completion12then5).heap.data
      (atReadCompletion dispatchedSession completion12then5).buffer_.addr).length : Int)
      = kBufferSize ∧
    (∀ o ∈ (atReadCompletion dispatchedSession completion12then5).request_.sync_reads,
      o.bytes_read ≤ kBufferSize) ∧
    (12 : Int) ≤ kBufferSize ∧
    ∃ (bufs : List IOBufferWithSize) (tail : List PostedTask) (j : Nat),
      newPosts (atReadCompletion dispatchedSession completion12then5)
        (OnReadCompleted lossyEnv (atReadCompletion dispatchedSession completion12then5) 12)
        = bufs.map dataPost ++ tail ∧
      (OnReadCompleted lossyEnv
        (atReadCompletion dispatchedSession completion12then5) 12).request_.calls
        = (atReadCompletion dispatchedSession completion12then5).request_.calls ++
          List.replicate j
            (RequestCall.Read (atReadCompletion dispatchedSession completion12then5).buffer_
              kBufferSize) ∧
      (∀ b ∈ bufs, 1 ≤ b.size_ ∧ b.size_ ≤ kBufferSize ∧
        (((OnReadCompleted lossyEnv
          (atReadCompletion dispatchedSession completion12then5) 12).heap.data b.addr).length
          : Int) = b.size_) := by
  have hreads : ∀ o ∈ (atReadCompletion dispatchedSession completion12then5).request_.sync_reads,
      o.bytes_read ≤ kBufferSize := by decide
  obtain ⟨bufs, tail, j, h1, _, h3, _, h5⟩ :=
    (reads_and_copies_fit_buffer lossyEnv (atReadCompletion dispatchedSession completion12then5)
      completedRead_buffer hreads).1 12 (by decide)
  exact ⟨completedRead_buffer, hreads, by decide, bufs, tail, j, h1, h3,
    fun b hb => ⟨(h5 b hb).1, (h5 b hb).2.1, (h5 b hb).2.2.2⟩⟩

end atom
